import Mathlib

/-!
Verification development for the eduvulcan token fetcher
(`eduvulcan_token_fetcher/app/main.py`).

The shallow embedding below translates the pure logic of the fetcher into
Lean.  Python values produced by `json.loads` are modelled by the inductive
type `Json`; Python's `None` coincides with JSON `null` after `json.loads`,
so both are modelled by `Json.null`.  JSON numeric literals are modelled as
integers (no analyzed behaviour depends on fractional values).  File system
state is modelled as an `Option Json` (the parsed content of
`/config/eduvulcan_token.json`, `none` when the file is absent), and the
browser-driving login flow (`retrieve_jwt`/`fetch_token`) is modelled as an
oracle giving the outcome of each attempt, since it performs network I/O.
-/

namespace EduVulcan

/-- A JSON value as produced by Python's `json.loads`.  Objects keep their
fields in document order; Python's `None` and JSON `null` are identified. -/
inductive Json where
  | null : Json
  | bool (b : Bool) : Json
  | num (n : Int) : Json
  | str (s : String) : Json
  | arr (items : List Json) : Json
  | obj (fields : List (String × Json)) : Json
deriving Repr

/-- The Python test `x is None` on a `json.loads` value. -/
def Json.isNull : Json → Bool
  | .null => true
  | _ => false

/-- Errors raised by the fetcher (`raise RuntimeError(...)` sites in
`main.py`), one constructor per distinct message, plus the Python
`TypeError` raised when iterating a non-iterable `Tokens` value and the
final wrapping error of `fetch_token_with_retry`. -/
inductive Err where
  | TokensFieldMissing : Err      -- "Tokens not found in login response"
  | JwtNotFound : Err             -- "JWT token not found in Tokens"
  | InvalidJwtFormat : Err        -- "Invalid JWT format"
  | PayloadDecodeError : Err      -- "Failed to decode JWT payload"
  | PayloadNotJson : Err          -- "JWT payload is not valid JSON"
  | PayloadNotObject : Err        -- "JWT payload is not a JSON object"
  | StaleToken : Err              -- "Stored token is expired"
  | TenantClaimMissing : Err      -- "Tenant field not found in stored JWT payload"
  | NotIterable : Err             -- Python TypeError from `for item in tokens`
  | MissingCredentials : Err      -- "Login and password are required"
  | FieldNotFound (field_name : String) : Err -- "Could not find {field_name} field"
  | LoginFlowFailure (step : String) : Err -- any failure inside the browser flow
  | FetchError (cause : Err) : Err -- "Failed to fetch token" from last_error
deriving DecidableEq, Repr

/-- Python truthiness of a `json.loads` value (`bool(x)`). -/
def truthy : Json → Bool
  | .null => false
  | .bool b => b
  | .num n => n != 0
  | .str s => s != ""
  | .arr l => !l.isEmpty
  | .obj f => !f.isEmpty

/-- `dict.get(key)` on an association list (Python dicts have unique keys;
a missing key yields Python `None`, modelled as `Json.null`). -/
def pyGetF (fields : List (String × Json)) (key : String) : Json :=
  match fields.lookup key with
  | some v => v
  | none => .null

/-- `x.get(key)` on a `json.loads` value known to be used as a dict. -/
def pyGet (j : Json) (key : String) : Json :=
  match j with
  | .obj fields => pyGetF fields key
  | _ => .null

/-- Python `x or y` restricted to `json.loads` values. -/
def pyOr (a b : Json) : Json :=
  if truthy a then a else b

/-- `is_jwt` from `main.py`: a value is a JWT iff it is a string containing
exactly two dots (`isinstance(value, str) and value.count(".") == 2`). -/
def is_jwt (value : Json) : Bool :=
  match value with
  | .str s => s.toList.count '.' == 2
  | _ => false

/-- The key priority list probed by `extract_jwt` on object elements. -/
def token_keys : List String :=
  ["Token", "token", "Value", "value", "AccessToken", "access_token", "Jwt", "jwt"]

/-- Body of the scan loop of `extract_jwt` for one element of the tokens
collection: a direct well-formed JWT string is accepted, otherwise a dict
element is probed with `token_keys` in order. -/
def scan_item (item : Json) : Option String :=
  match item with
  | .str s => if is_jwt (.str s) then some s else none
  | .obj _ =>
    token_keys.findSome? fun key =>
      match pyGet item key with
      | .str s => if is_jwt (.str s) then some s else none
      | _ => none
  | _ => none

/-- The Python iteration `for item in tokens`: a list iterates its elements,
a dict was already wrapped by the caller, a string iterates its characters
(each as a one-character string), anything else raises `TypeError`. -/
def asIterable (tokens : Json) : Except Err (List Json) :=
  match tokens with
  | .arr l => .ok l
  | .str s => .ok (s.toList.map fun c => .str (String.singleton c))
  | _ => .error .NotIterable

/-- `extract_jwt` from `main.py`.  Note the Python expression
`ap_data.get("Tokens") or ap_data.get("tokens")`: a falsy `Tokens` value
(absent, `null`, `[]`, `{}`, `""`, `0`, `false`) falls through to the
lower-case field, and only a final `None`-like result raises
"Tokens not found in login response". -/
def extract_jwt (ap_data : Json) : Except Err String :=
  let tokens := pyOr (pyGet ap_data "Tokens") (pyGet ap_data "tokens")
  if tokens.isNull then .error .TokensFieldMissing
  else
    let tokens_iter : Except Err (List Json) :=
      match tokens with
      | .obj fields => .ok [.obj fields]
      | other => asIterable other
    match tokens_iter with
    | .error e => .error e
    | .ok items =>
      match items.findSome? scan_item with
      | some s => .ok s
      | none => .error .JwtNotFound

/-- Python `s.split(".")` on the character list of a string: the list of
dot-separated segments (empty segments preserved). -/
def segs : List Char → List (List Char)
  | [] => [[]]
  | c :: cs =>
    match segs cs with
    | [] => [[c]]
    | s :: rest => if c = '.' then [] :: s :: rest else (c :: s) :: rest

/-- Decimal digit test (`'0' ≤ c ≤ '9'`). -/
def isDig (c : Char) : Bool :=
  48 ≤ c.toNat && c.toNat ≤ 57

/-- Value of a lowercase/uppercase hexadecimal digit. -/
def hexVal (c : Char) : Option Nat :=
  if 48 ≤ c.toNat ∧ c.toNat ≤ 57 then some (c.toNat - 48)
  else if 97 ≤ c.toNat ∧ c.toNat ≤ 102 then some (c.toNat - 87)
  else if 65 ≤ c.toNat ∧ c.toNat ≤ 70 then some (c.toNat - 55)
  else none

/-- Value of a base64url alphabet character (`A-Z a-z 0-9 - _`). -/
def b64DecodeChar (c : Char) : Option Nat :=
  if 65 ≤ c.toNat ∧ c.toNat ≤ 90 then some (c.toNat - 65)
  else if 97 ≤ c.toNat ∧ c.toNat ≤ 122 then some (c.toNat - 71)
  else if 48 ≤ c.toNat ∧ c.toNat ≤ 57 then some (c.toNat + 4)
  else if c = '-' then some 62
  else if c = '_' then some 63
  else none

/-- Model of `base64.urlsafe_b64decode` on a padded input: groups of four
alphabet characters become three bytes, a final `xx==` group one byte and a
final `xxx=` group two bytes.  (The stdlib's silent discarding of
non-alphabet characters is not modelled; no analyzed input exercises it.) -/
def b64decode : List Char → Option (List Nat)
  | [] => some []
  | c1 :: c2 :: c3 :: c4 :: rest =>
    match b64DecodeChar c1, b64DecodeChar c2 with
    | some v1, some v2 =>
      if c3 = '=' then
        if c4 = '=' ∧ rest = [] then some [v1 * 4 + v2 / 16] else none
      else
        match b64DecodeChar c3 with
        | some v3 =>
          if c4 = '=' then
            if rest = [] then some [v1 * 4 + v2 / 16, v2 % 16 * 16 + v3 / 4]
            else none
          else
            match b64DecodeChar c4, b64decode rest with
            | some v4, some tl =>
              some ((v1 * 4 + v2 / 16) :: (v2 % 16 * 16 + v3 / 4) :: (v3 % 4 * 64 + v4) :: tl)
            | _, _ => none
        | none => none
    | _, _ => none
  | _ => none

/-- Model of `bytes.decode("utf-8")` on the ASCII plane: every byte below
128 maps to the corresponding character.  The serializer under analysis
(`json.dumps` with its default `ensure_ascii`) only ever produces ASCII
bytes, so multi-byte UTF-8 sequences are never exercised. -/
def asciiDecode : List Nat → Option (List Char)
  | [] => some []
  | b :: bs =>
    if b < 128 then (asciiDecode bs).map (fun l => Char.ofNat b :: l) else none

/-- Digits of a decimal numeral, most significant first, read into a `Nat`. -/
def digsToNat (l : List Char) : Nat :=
  l.foldl (fun acc c => acc * 10 + (c.toNat - 48)) 0

/-- Split a character list into its leading run of decimal digits and the
remainder. -/
def takeDigs : List Char → List Char × List Char
  | [] => ([], [])
  | c :: cs =>
    if isDig c then
      let p := takeDigs cs
      (c :: p.1, p.2)
    else ([], c :: cs)

/-- Parse a nonempty run of decimal digits as a natural number. -/
def parseDigits (cs : List Char) : Option (Nat × List Char) :=
  let p := takeDigs cs
  if p.1.isEmpty then none else some (digsToNat p.1, p.2)

/-- Value of four hexadecimal digit characters, most significant first. -/
def hex4Val (h1 h2 h3 h4 : Char) : Option Nat :=
  match hexVal h1, hexVal h2, hexVal h3, hexVal h4 with
  | some a, some b, some c3, some d => some (a * 4096 + b * 256 + c3 * 16 + d)
  | _, _, _, _ => none

/-- Decode the low half of a UTF-16 surrogate-pair escape: expects a
`\uXXXX` escape whose value lies in the low-surrogate range and combines
it with the already-read high half `code`. -/
def parseLoSurrogate (code : Nat) : List Char → Option (Nat × List Char)
  | '\\' :: 'u' :: g1 :: g2 :: g3 :: g4 :: r3 =>
    match hex4Val g1 g2 g3 g4 with
    | some lo =>
      if 56320 ≤ lo ∧ lo < 57344 then
        some (65536 + (code - 55296) * 1024 + (lo - 56320), r3)
      else none
    | none => none
  | _ => none

/-- Decode the four hex digits of a `\uXXXX` escape (the input starts
after the `u`), following with the low surrogate half when the value is a
high surrogate; lone surrogates are rejected. -/
def parseUEscape : List Char → Option (Nat × List Char)
  | h1 :: h2 :: h3 :: h4 :: r2 =>
    match hex4Val h1 h2 h3 h4 with
    | some code =>
      if 55296 ≤ code ∧ code < 56320 then parseLoSurrogate code r2
      else if 56320 ≤ code ∧ code < 57344 then none
      else some (code, r2)
    | none => none
  | _ => none

/-- Parse the body of a JSON string literal (after the opening quote),
returning its characters and the input following the closing quote.
Handles the short escapes, `\uXXXX` escapes and UTF-16 surrogate pairs;
unescaped control characters are rejected as in `json.loads` strict mode.
(Lone surrogate escapes are rejected, as Lean characters cannot carry
them; no analyzed input contains one.)  The explicit fuel is an upper
bound on the characters consumed; callers pass the input length plus
one, which always suffices. -/
def parseStrChars : Nat → List Char → Option (List Char × List Char)
  | 0, _ => none
  | _ + 1, [] => none
  | fuel + 1, c :: rest =>
    if c = '"' then some ([], rest)
    else if c = '\\' then
      match rest with
      | [] => none
      | e :: r =>
        if e = '"' then (parseStrChars fuel r).map (fun p => ('"' :: p.1, p.2))
        else if e = '\\' then (parseStrChars fuel r).map (fun p => ('\\' :: p.1, p.2))
        else if e = '/' then (parseStrChars fuel r).map (fun p => ('/' :: p.1, p.2))
        else if e = 'b' then (parseStrChars fuel r).map (fun p => ('\x08' :: p.1, p.2))
        else if e = 'f' then (parseStrChars fuel r).map (fun p => ('\x0c' :: p.1, p.2))
        else if e = 'n' then (parseStrChars fuel r).map (fun p => ('\n' :: p.1, p.2))
        else if e = 'r' then (parseStrChars fuel r).map (fun p => ('\r' :: p.1, p.2))
        else if e = 't' then (parseStrChars fuel r).map (fun p => ('\t' :: p.1, p.2))
        else if e = 'u' then
          match parseUEscape r with
          | some (n2, r2) =>
            (parseStrChars fuel r2).map (fun p => (Char.ofNat n2 :: p.1, p.2))
          | none => none
        else none
    else if c.toNat < 32 then none
    else (parseStrChars fuel rest).map (fun p => (c :: p.1, p.2))

mutual

/-- Recursive-descent model of Python's `json.loads` on a single value,
with explicit fuel.  Whitespace is not modelled: every document the
analysis feeds to the parser is in the compact form the serializer emits. -/
def parseValue : Nat → List Char → Option (Json × List Char)
  | 0, _ => none
  | fuel + 1, cs =>
    match cs with
    | [] => none
    | c :: rest =>
      if c = 'n' then
        match rest with
        | 'u' :: 'l' :: 'l' :: r => some (.null, r)
        | _ => none
      else if c = 't' then
        match rest with
        | 'r' :: 'u' :: 'e' :: r => some (.bool true, r)
        | _ => none
      else if c = 'f' then
        match rest with
        | 'a' :: 'l' :: 's' :: 'e' :: r => some (.bool false, r)
        | _ => none
      else if c = '"' then
        match parseStrChars (rest.length + 1) rest with
        | some (l, r) => some (.str (String.mk l), r)
        | none => none
      else if c = '[' then
        match rest with
        | ']' :: r => some (.arr [], r)
        | _ =>
          match parseItems fuel rest with
          | some (items, r) => some (.arr items, r)
          | none => none
      else if c = '\x7b' then
        match rest with
        | '\x7d' :: r => some (.obj [], r)
        | _ =>
          match parseMembers fuel rest with
          | some (fields, r) => some (.obj fields, r)
          | none => none
      else if c = '-' then
        match parseDigits rest with
        | some (m, r) => some (.num (-(m : Int)), r)
        | none => none
      else if isDig c then
        match parseDigits (c :: rest) with
        | some (m, r) => some (.num (m : Int), r)
        | none => none
      else none

/-- Parse the elements of a nonempty JSON array body up to `]`. -/
def parseItems : Nat → List Char → Option (List Json × List Char)
  | 0, _ => none
  | fuel + 1, cs =>
    match parseValue fuel cs with
    | some (v, ',' :: r) =>
      match parseItems fuel r with
      | some (vs, r2) => some (v :: vs, r2)
      | none => none
    | some (v, ']' :: r) => some ([v], r)
    | _ => none

/-- Parse the members of a nonempty JSON object body up to the closing
brace. -/
def parseMembers : Nat → List Char → Option (List (String × Json) × List Char)
  | 0, _ => none
  | fuel + 1, cs =>
    match cs with
    | '"' :: rest =>
      match parseStrChars (rest.length + 1) rest with
      | some (k, ':' :: r1) =>
        match parseValue fuel r1 with
        | some (v, ',' :: r2) =>
          match parseMembers fuel r2 with
          | some (kvs, r3) => some ((String.mk k, v) :: kvs, r3)
          | none => none
        | some (v, '\x7d' :: r2) => some ([(String.mk k, v)], r2)
        | _ => none
      | _ => none
    | _ => none

end

/-- Model of `json.loads`: parse one value, requiring the whole input to be
consumed.  (Duplicate object keys are kept in order rather than collapsed
to the last occurrence as a Python dict would; no analyzed document has
duplicate keys.) -/
def json_loads (cs : List Char) : Option Json :=
  match parseValue (cs.length + 1) cs with
  | some (v, []) => some v
  | _ => none

/-- `decode_jwt_payload` from `main.py`: split on dots, require three
parts, re-pad the middle segment to a multiple of four characters,
base64url-decode it, decode the bytes as text, parse them as JSON and
require a JSON object. -/
def decode_jwt_payload (jwt_token : String) : Except Err (List (String × Json)) :=
  match segs jwt_token.toList with
  | [_, payload_b64, _] =>
    let padded := payload_b64 ++ List.replicate ((4 - payload_b64.length % 4) % 4) '='
    match b64decode padded with
    | none => .error .PayloadDecodeError
    | some bytes =>
      match asciiDecode bytes with
      | none => .error .PayloadNotJson
      | some chars =>
        match json_loads chars with
        | some (.obj fields) => .ok fields
        | some _ => .error .PayloadNotObject
        | none => .error .PayloadNotJson
  | _ => .error .InvalidJwtFormat

/-- Python `float(x)` applied to a `json.loads` value, as used on the `exp`
claim: numbers convert, booleans convert to `1`/`0`, numeric strings parse
(modelled for integer literals), everything else raises (`none`). -/
def pyFloat (v : Json) : Option Int :=
  match v with
  | .num n => some n
  | .bool b => some (if b then 1 else 0)
  | .str s => s.toInt?
  | _ => none

/-- `is_payload_expired` from `main.py`: an absent or unconvertible `exp`
claim means "not expired"; otherwise the token is expired once the current
time is at or past the claimed instant (`time.time() >= exp_timestamp`). -/
def is_payload_expired (payload : List (String × Json)) (now : Int) : Bool :=
  match pyGetF payload "exp" with
  | .null => false
  | exp_value =>
    match pyFloat exp_value with
    | none => false
    | some exp_timestamp => now ≥ exp_timestamp

/-- The record `read_existing_token` returns: the stored JWT, the
stringified tenant, the (possibly re-derived) payload, and whether the
file needs rewriting because the payload was re-derived. -/
structure StoredRec where
  jwt : String
  tenant : String
  payload : List (String × Json)
  needs_write : Bool
deriving Repr

/-- Python `str(x)` on a `json.loads` value, as applied to the tenant
claim (`repr`-style rendering of containers is not needed by any analyzed
behaviour and is rendered structurally). -/
def pyStr : Json → String
  | .null => "None"
  | .bool true => "True"
  | .bool false => "False"
  | .num n => toString n
  | .str s => s
  | .arr _ => "[...]"
  | .obj _ => "\x7b...\x7d"

/-- The payload-resolution step of `read_existing_token`: a stored
`jwt_payload` object is used as is; anything else (absent or non-object)
re-derives the payload from the JWT and marks the record as needing a
rewrite; a decode failure propagates as a raised error. -/
def resolve_payload (data : Json) (jwt : String) :
    Except Err (List (String × Json) × Bool) :=
  match pyGet data "jwt_payload" with
  | .obj pf => .ok (pf, false)
  | _ =>
    match decode_jwt_payload jwt with
    | .ok pf => .ok (pf, true)
    | .error e => .error e

/-- `read_existing_token` from `main.py`, as a function of the parsed file
content (`none` when the file is absent, unreadable or unparseable, all of
which make the Python function return `None`) and the current time.
`Except.ok none` models returning `None` (cache absent / structurally
invalid); `Except.error` models a raised `RuntimeError`. -/
def read_existing_token (file : Option Json) (now : Int) :
    Except Err (Option StoredRec) :=
  match file with
  | none => .ok none
  | some data =>
    match data with
    | .obj _ =>
      match pyGet data "jwt" with
      | .str jwt =>
        if is_jwt (.str jwt) then
          match resolve_payload data jwt with
          | .error e => .error e
          | .ok (payload, needs_write) =>
            if is_payload_expired payload now then .error .StaleToken
            else
              let tenant :=
                pyOr (pyGet data "tenant")
                  (pyOr (pyGetF payload "tenant") (pyGetF payload "Tenant"))
              if truthy tenant then
                .ok (some ⟨jwt, pyStr tenant, payload, needs_write⟩)
              else .error .TenantClaimMissing
        else .ok none
      | _ => .ok none
    | _ => .ok none

/-- The JSON object `write_token_file` persists. -/
def write_token_file (jwt : String) (tenant : String)
    (payload : List (String × Json)) : Json :=
  .obj [("jwt", .str jwt), ("tenant", .str tenant), ("jwt_payload", .obj payload)]

/-- The value `fetch_token` produces on success: `{jwt, tenant, payload}`. -/
structure TokenData where
  jwt : String
  tenant : String
  payload : List (String × Json)
deriving Repr

/-- `fetch_token_with_retry` from `main.py`, with `fetch_token` (the
browser login flow plus extraction) modelled as an oracle from the attempt
index to its outcome.  Returns the result, the token-file state after the
call (the file is removed on every failed attempt) and the number of
attempts performed. -/
def fetch_token_with_retry (attempts : Nat → Except Err TokenData)
    (file : Option Json) : Except Err TokenData × Option Json × Nat :=
  match attempts 0 with
  | .ok d => (.ok d, file, 1)
  | .error _ =>
    match attempts 1 with
    | .ok d => (.ok d, none, 2)
    | .error e2 => (.error (.FetchError e2), none, 2)

/-- The cache-consultation phase of `run` in `main.py`: try
`read_existing_token`; a raised error deletes the token file and proceeds
with no existing record, otherwise the file is left untouched. -/
def run_cache_phase (file : Option Json) (now : Int) :
    Option StoredRec × Option Json :=
  match read_existing_token file now with
  | .ok existing => (existing, file)
  | .error _ => (none, none)

/-- Outcome of one `run` invocation: the record the process ends up serving
(or the raised error), the final token-file state, and how many times the
login flow (`fetch_token`) ran. -/
structure RunOutcome where
  result : Except Err TokenData
  finalFile : Option Json
  flowRuns : Nat
deriving Repr

/-- `run` from `main.py`, over the parsed token-file state, the current
time, the credentials (as resolved by `prompt_for_credentials`, which is
interactive I/O) and the login-flow oracle.  A usable cached record is
served directly — rewritten first when it was self-healed — and the login
flow is only consulted on a cache miss. -/
def run (file : Option Json) (now : Int) (login password : String)
    (attempts : Nat → Except Err TokenData) : RunOutcome :=
  let phase1 := run_cache_phase file now
  match phase1.1 with
  | some record =>
    if record.needs_write then
      { result := .ok ⟨record.jwt, record.tenant, record.payload⟩
        finalFile := some (write_token_file record.jwt record.tenant record.payload)
        flowRuns := 0 }
    else
      { result := .ok ⟨record.jwt, record.tenant, record.payload⟩
        finalFile := phase1.2
        flowRuns := 0 }
  | none =>
    if login.trim = "" ∨ password = "" then
      { result := .error .MissingCredentials, finalFile := phase1.2, flowRuns := 0 }
    else
      let fetched := fetch_token_with_retry attempts phase1.2
      match fetched.1 with
      | .ok d =>
        { result := .ok d
          finalFile := some (write_token_file d.jwt d.tenant d.payload)
          flowRuns := fetched.2.2 }
      | .error e =>
        { result := .error e, finalFile := fetched.2.1, flowRuns := fetched.2.2 }

/-- A page element as seen through the automation capability: an identity,
whether `is_visible()` reports it visible, and whether `fill(value)`
succeeds on it (Playwright's `fill` raises on non-actionable elements). -/
structure Elem where
  id : Nat
  visible : Bool
  fillOk : Bool
deriving DecidableEq, Repr

/-- A page state: the element lists returned by
`page.get_by_label(label, exact=False)` and `page.locator(selector)`,
in DOM order. -/
structure Page where
  byLabel : String → List Elem
  bySelector : String → List Elem

/-- `fill_by_labels` from `main.py`: for each label in order, skip it when
it has zero matches, otherwise attempt `locator.first.fill(value)` — the
first match, with no visibility check — moving to the next label when the
fill raises.  Returns the id of the element that received the fill (the
Python function returns `True`), or `none` (Python `False`). -/
def fill_by_labels (page : Page) (labels : List String) : Option Nat :=
  labels.findSome? fun label =>
    match page.byLabel label with
    | [] => none
    | e :: _ => if e.fillOk then some e.id else none

/-- `fill_by_selectors` from `main.py`: for each selector in order, skip it
when it has zero matches, otherwise walk its matches and fill the first
one that is visible and whose fill succeeds; exhaustion raises
"Could not find {field_name} field". -/
def fill_by_selectors (page : Page) (selectors : List String)
    (field_name : String) : Except Err Nat :=
  match selectors.findSome? (fun selector =>
      (page.bySelector selector).findSome? fun e =>
        if e.visible && e.fillOk then some e.id else none) with
  | some i => .ok i
  | none => .error (.FieldNotFound field_name)

/-- The shared shape of `fill_login` / `fill_password` in `main.py`:
semantic label locators first, structural selectors as the fallback. -/
def fill_field (page : Page) (labels selectors : List String)
    (field_name : String) : Except Err Nat :=
  match fill_by_labels page labels with
  | some i => .ok i
  | none => fill_by_selectors page selectors field_name

/-- Lowercase hexadecimal digit. -/
def hexDig (d : Nat) : Char :=
  if d < 10 then Char.ofNat (48 + d) else Char.ofNat (87 + d)

/-- Four-digit lowercase hexadecimal rendering of `n < 65536`. -/
def hex4 (n : Nat) : List Char :=
  [hexDig (n / 4096 % 16), hexDig (n / 256 % 16), hexDig (n / 16 % 16), hexDig (n % 16)]

/-- Modelled from the spec: one character of the JSON serialization of a
string, following `json.dumps` with its default `ensure_ascii` — the quote
and backslash are escaped, control and non-ASCII characters become
`\uXXXX` escapes (a UTF-16 surrogate pair beyond the BMP), and printable
ASCII is emitted verbatim. -/
def escapeChar (c : Char) : List Char :=
  if c = '"' then ['\\', '"']
  else if c = '\\' then ['\\', '\\']
  else if c.toNat < 32 ∨ 127 ≤ c.toNat then
    if c.toNat < 65536 then '\\' :: 'u' :: hex4 c.toNat
    else
      ('\\' :: 'u' :: hex4 (55296 + (c.toNat - 65536) / 1024)) ++
      ('\\' :: 'u' :: hex4 (56320 + (c.toNat - 65536) % 1024))
  else [c]

/-- String-body serialization: each character escaped. -/
def escapeStr : List Char → List Char
  | [] => []
  | c :: cs => escapeChar c ++ escapeStr cs

/-- Decimal rendering of a natural number, most significant digit first. -/
def printNat (m : Nat) : List Char :=
  if m = 0 then ['0']
  else (Nat.digits 10 m).reverse.map fun d => Char.ofNat (48 + d)

/-- Decimal rendering of an integer. -/
def printInt (n : Int) : List Char :=
  if n < 0 then '-' :: printNat (-n).toNat else printNat n.toNat

mutual

/-- Modelled from the spec: the JSON serialization of a payload object
(the repository has no encoder; `json.dumps` with compact separators and
default `ensure_ascii` is the serialization the spec's round-trip sentence
refers to). -/
def printJson : Json → List Char
  | .null => 'n' :: ['u', 'l', 'l']
  | .bool true => 't' :: ['r', 'u', 'e']
  | .bool false => 'f' :: ['a', 'l', 's', 'e']
  | .num n => printInt n
  | .str s => '"' :: (escapeStr s.toList ++ ['"'])
  | .arr l => '[' :: (printList l ++ [']'])
  | .obj fs => '\x7b' :: (printMembers fs ++ ['\x7d'])

/-- Serialization of array elements, comma separated. -/
def printList : List Json → List Char
  | [] => []
  | [v] => printJson v
  | v :: rest => printJson v ++ ',' :: printList rest

/-- Serialization of object members, comma separated. -/
def printMembers : List (String × Json) → List Char
  | [] => []
  | [(k, v)] => '"' :: (escapeStr k.toList ++ '"' :: ':' :: printJson v)
  | (k, v) :: rest =>
    ('"' :: (escapeStr k.toList ++ '"' :: ':' :: printJson v)) ++ ',' :: printMembers rest

end

/-- Base64url alphabet character of a six-bit value. -/
def b64EncodeChar (n : Nat) : Char :=
  if n < 26 then Char.ofNat (65 + n)
  else if n < 52 then Char.ofNat (97 + (n - 26))
  else if n < 62 then Char.ofNat (48 + (n - 52))
  else if n = 62 then '-'
  else '_'

/-- Modelled from the spec: unpadded base64url encoding of a byte list
(the encoder side of the spec's round-trip sentence; the repository only
ships the decoder). -/
def b64encode : List Nat → List Char
  | [] => []
  | [a] => [b64EncodeChar (a / 4), b64EncodeChar (a % 4 * 16)]
  | [a, b] =>
    [b64EncodeChar (a / 4), b64EncodeChar (a % 4 * 16 + b / 16),
     b64EncodeChar (b % 16 * 4)]
  | a :: b :: c :: rest =>
    b64EncodeChar (a / 4) :: b64EncodeChar (a % 4 * 16 + b / 16) ::
    b64EncodeChar (b % 16 * 4 + c / 64) :: b64EncodeChar (c % 64) :: b64encode rest

/-- Modelled from the spec: a JWT-shaped string whose middle segment is
the unpadded base64url encoding of the JSON serialization of `payload`. -/
def encode_jwt (header : List Char) (payload : Json) (sig : List Char) : String :=
  String.mk (header ++ '.' :: (b64encode ((printJson payload).map Char.toNat) ++ '.' :: sig))

/-- Modelled from the spec: the well-formed-JWT candidate strings one
element of the tokens collection contributes, in acceptance-priority
order — a direct well-formed JWT string first, otherwise the well-formed
JWT values of an object element under the fixed key list in priority
order. -/
def spec_scan_candidates (e : Json) : List String :=
  match e with
  | .str s => if is_jwt (.str s) then [s] else []
  | .obj _ =>
    (token_keys.filterMap fun key =>
      match pyGet e key with
      | .str s => some s
      | _ => none).filter fun s => is_jwt (.str s)
  | _ => []

/-- Modelled from the spec: the first element of the structural selector
lists, taken in declared priority order, that is visible and accepts the
fill. -/
def spec_first_visible (page : Page) (selectors : List String) : Option Elem :=
  ((selectors.map page.bySelector).flatten).find? fun e => e.visible && e.fillOk

/-- A parse continuation is unambiguous when it does not start with a
decimal digit (so a numeral before it ends exactly where printed). -/
def restOk : List Char → Bool
  | [] => true
  | c :: _ => !isDig c

mutual

/-- Fuel measure for `parseValue` sufficient to parse a printed value. -/
def jsize : Json → Nat
  | .null => 1
  | .bool _ => 1
  | .num _ => 1
  | .str _ => 1
  | .arr l => jsizeItems l + 1
  | .obj fs => jsizeMembers fs + 1

/-- Fuel measure for `parseItems` on a printed element list. -/
def jsizeItems : List Json → Nat
  | [] => 0
  | v :: rest => jsize v + jsizeItems rest + 1

/-- Fuel measure for `parseMembers` on a printed member list. -/
def jsizeMembers : List (String × Json) → Nat
  | [] => 0
  | (_, v) :: rest => jsize v + jsizeMembers rest + 1

end

lemma segs_ne_nil (l : List Char) : segs l ≠ [] := by
  cases l with
  | nil => simp [segs]
  | cons c cs =>
    simp only [segs]
    cases segs cs with
    | nil => simp
    | cons s rest => by_cases hc : c = '.' <;> simp [hc]

lemma segs_length (l : List Char) : (segs l).length = l.count '.' + 1 := by
  induction l with
  | nil => simp [segs]
  | cons c cs ih =>
    simp only [segs]
    cases h : segs cs with
    | nil => exact absurd h (segs_ne_nil cs)
    | cons s rest =>
      rw [h] at ih
      simp only [List.length_cons] at ih
      have hcount : (c :: cs).count '.' = cs.count '.' + (if c = '.' then 1 else 0) := by
        simp [List.count_cons]
      rw [hcount]
      by_cases hc : c = '.' <;> simp [hc] <;> omega

lemma probe_keys_eq_head (e : Json) (keys : List String) :
    (keys.findSome? fun key =>
      match pyGet e key with
      | .str s => if is_jwt (.str s) then some s else none
      | _ => none)
    = ((keys.filterMap fun key =>
        match pyGet e key with
        | .str s => some s
        | _ => none).filter fun s => is_jwt (.str s)).head? := by
  induction keys with
  | nil => rfl
  | cons k ks ih =>
    simp only [List.findSome?_cons, List.filterMap_cons]
    cases hk : pyGet e k with
    | str s =>
      by_cases h : is_jwt (.str s)
      · simp [h, List.filter_cons]
      · simp [h, List.filter_cons, ih]
    | null => simpa using ih
    | bool b => simpa using ih
    | num n => simpa using ih
    | arr l => simpa using ih
    | obj f => simpa using ih

lemma scan_item_eq_head (e : Json) :
    scan_item e = (spec_scan_candidates e).head? := by
  cases e with
  | str s =>
    by_cases h : is_jwt (.str s) <;> simp [scan_item, spec_scan_candidates, h]
  | obj fields =>
    simp only [scan_item, spec_scan_candidates]
    exact probe_keys_eq_head (Json.obj fields) token_keys
  | null => rfl
  | bool b => rfl
  | num n => rfl
  | arr l => rfl

lemma scan_list_eq (l : List Json) :
    l.findSome? scan_item = ((l.map spec_scan_candidates).flatten).head? := by
  induction l with
  | nil => rfl
  | cons e es ih =>
    simp only [List.findSome?_cons, List.map_cons, List.flatten_cons]
    rw [scan_item_eq_head e]
    cases hc : spec_scan_candidates e with
    | nil => simpa using ih
    | cons a as => simp

lemma mem_spec_candidates_jwt {e : Json} {s : String}
    (h : s ∈ spec_scan_candidates e) : is_jwt (Json.str s) = true := by
  cases e with
  | str t =>
    simp only [spec_scan_candidates] at h
    by_cases hj : is_jwt (.str t)
    · simp [hj] at h; subst h; exact hj
    · simp [hj] at h
  | obj fields =>
    simp only [spec_scan_candidates, List.mem_filter] at h
    exact h.2
  | null => simp [spec_scan_candidates] at h
  | bool b => simp [spec_scan_candidates] at h
  | num n => simp [spec_scan_candidates] at h
  | arr l => simp [spec_scan_candidates] at h

lemma extract_jwt_arr (ap_data : Json) (l : List Json)
    (h : pyOr (pyGet ap_data "Tokens") (pyGet ap_data "tokens") = Json.arr l) :
    extract_jwt ap_data =
      match ((l.map spec_scan_candidates).flatten).head? with
      | some s => Except.ok s
      | none => Except.error Err.JwtNotFound := by
  rw [← scan_list_eq]
  simp only [extract_jwt, h, Json.isNull, asIterable, Bool.false_eq_true, if_false]

/-- C6, counterexample: the string `".."` contains exactly two dots, so
`is_jwt` accepts it, yet its three dot-separated segments are all empty —
refuting "well-formed iff exactly three dot-separated, NON-EMPTY
segments" at this input. -/
theorem is_jwt_nonempty_segments_refuted :
    ¬ (is_jwt (Json.str "..") = true ↔
        ((segs (String.toList "..")).length = 3 ∧
          ∀ seg ∈ segs (String.toList ".."), seg ≠ [])) := by
  decide

/-- C6, amended: `is_jwt` accepts a string iff it splits into exactly
three dot-separated segments (equivalently, contains exactly two dots),
empty segments included; in particular any string whose dot count differs
from 2 is rejected. -/
theorem is_jwt_iff_three_segments : ∀ s : String,
    (is_jwt (Json.str s) = true ↔ (segs s.toList).length = 3) ∧
    (s.toList.count '.' ≠ 2 → is_jwt (Json.str s) = false) := by
  intro s
  have hlen := segs_length s.toList
  constructor
  · simp only [is_jwt, beq_iff_eq, hlen]
    omega
  · intro h
    have hbeq : (s.toList.count '.' == 2) = false := by simpa using h
    simp only [is_jwt, hbeq]

/-- C7, counterexample: `{"Tokens": []}` has a `Tokens` field, yet
`extract_jwt` fails with the Tokens-missing error rather than
`JwtNotFound`, because the Python expression
`ap_data.get("Tokens") or ap_data.get("tokens")` treats the empty
collection as falsy. -/
theorem extract_jwt_empty_tokens_refuted :
    pyGet (Json.obj [("Tokens", Json.arr [])]) "Tokens" ≠ Json.null ∧
    extract_jwt (Json.obj [("Tokens", Json.arr [])]) =
      .error .TokensFieldMissing :=
  ⟨fun h => Json.noConfusion h, rfl⟩

/-- C7, amended: `extract_jwt` fails with the Tokens-missing error exactly
when the truthiness-coalesced value of the `Tokens`/`tokens` fields is
`None`-like (both absent, `null`, or falsy — in particular a present but
EMPTY `Tokens` collection whose lower-case twin is absent also reports the
field missing); when the coalesced value is a collection none of whose
elements yields a well-formed JWT candidate, it fails with `JwtNotFound`. -/
theorem extract_jwt_missing_iff : ∀ ap_data : Json,
    (extract_jwt ap_data = .error .TokensFieldMissing ↔
      pyOr (pyGet ap_data "Tokens") (pyGet ap_data "tokens") = Json.null) ∧
    (∀ l : List Json,
      pyOr (pyGet ap_data "Tokens") (pyGet ap_data "tokens") = Json.arr l →
      (∀ e ∈ l, spec_scan_candidates e = []) →
      extract_jwt ap_data = .error .JwtNotFound) := by
  intro ap_data
  constructor
  · constructor
    · intro h
      by_contra hnull
      revert h
      simp only [extract_jwt]
      cases ht : pyOr (pyGet ap_data "Tokens") (pyGet ap_data "tokens") with
      | null => exact absurd ht hnull
      | bool b =>
        simp [Json.isNull, asIterable]
      | num n =>
        simp [Json.isNull, asIterable]
      | str s =>
        simp only [Json.isNull, Bool.false_eq_true, if_false, asIterable]
        cases h : List.findSome? scan_item
            (s.toList.map fun c => Json.str (String.singleton c)) <;> simp [h]
      | arr l =>
        simp only [Json.isNull, Bool.false_eq_true, if_false, asIterable]
        cases h : List.findSome? scan_item l <;> simp [h]
      | obj f =>
        simp only [Json.isNull, Bool.false_eq_true, if_false]
        cases h : List.findSome? scan_item [Json.obj f] <;> simp [h]
    · intro h
      simp [extract_jwt, h, Json.isNull]
  · intro l hl hempty
    rw [extract_jwt_arr ap_data l hl]
    have : (l.map spec_scan_candidates).flatten = [] := by
      simp only [List.flatten_eq_nil_iff]
      intro x hx
      rcases List.mem_map.mp hx with ⟨e, he, rfl⟩
      exact hempty e he
    simp [this]

/-- C7, witness for the amended theorem: a nonempty `tokens` collection
with no qualifying element fails with `JwtNotFound`, and an input with
both fields absent fails with the Tokens-missing error. -/
theorem extract_jwt_missing_iff_witness :
    extract_jwt (Json.obj [("tokens", Json.arr [Json.num 7])]) =
        .error .JwtNotFound ∧
    extract_jwt (Json.obj [("other", Json.num 1)]) =
        .error .TokensFieldMissing :=
  ⟨(extract_jwt_missing_iff (Json.obj [("tokens", Json.arr [Json.num 7])])).2
      [Json.num 7] rfl (by intro e he; simp at he; subst he; rfl),
    ((extract_jwt_missing_iff (Json.obj [("other", Json.num 1)])).1).2 rfl⟩

/-- C2: `extract_jwt` scans the resolved tokens collection in collection
order, each element contributing its spec-ordered candidate strings
(direct well-formed JWT string first, else the object's probed key values
in priority order), and returns the first acceptance — failing with
`JwtNotFound` when there is none; in particular the three documented
examples behave as stated. -/
theorem extract_jwt_scan_order :
    (∀ (ap_data : Json) (l : List Json),
        pyOr (pyGet ap_data "Tokens") (pyGet ap_data "tokens") = Json.arr l →
        extract_jwt ap_data =
          match ((l.map spec_scan_candidates).flatten).head? with
          | some s => Except.ok s
          | none => Except.error Err.JwtNotFound) ∧
    extract_jwt (Json.obj [("Tokens", Json.arr [Json.obj [("token", Json.str "a.b.c")]])]) =
        .ok "a.b.c" ∧
    extract_jwt (Json.obj [("Tokens", Json.arr [Json.str "x.y.z"])]) = .ok "x.y.z" ∧
    extract_jwt (Json.obj [("Tokens", Json.arr [Json.obj [("foo", Json.str "bar")]])]) =
        .error .JwtNotFound :=
  ⟨extract_jwt_arr, rfl, rfl, rfl⟩

/-- C2, witness: the scan-order characterization applied at a concrete
two-element collection — the first element has no candidate, the second
supplies the accepted JWT. -/
theorem extract_jwt_scan_order_witness :
    extract_jwt (Json.obj [("Tokens", Json.arr [Json.num 3, Json.str "x.y.z"])]) =
      .ok "x.y.z" := by
  have h := extract_jwt_scan_order.1
    (Json.obj [("Tokens", Json.arr [Json.num 3, Json.str "x.y.z"])])
    [Json.num 3, Json.str "x.y.z"] rfl
  simpa using h

/-- C10: `is_jwt` rejects every non-string JSON value, and on any resolved
tokens collection `extract_jwt` is total: it either returns a well-formed
JWT string or fails with `JwtNotFound`, regardless of what JSON values the
collection contains. -/
theorem extract_jwt_total :
    (∀ v : Json, (∀ s, v ≠ Json.str s) → is_jwt v = false) ∧
    (∀ (ap_data : Json) (l : List Json),
        pyOr (pyGet ap_data "Tokens") (pyGet ap_data "tokens") = Json.arr l →
        (∃ s, extract_jwt ap_data = .ok s ∧ is_jwt (Json.str s) = true) ∨
          extract_jwt ap_data = .error .JwtNotFound) := by
  constructor
  · intro v hv
    cases v with
    | str s => exact absurd rfl (hv s)
    | null => rfl
    | bool b => rfl
    | num n => rfl
    | arr l => rfl
    | obj f => rfl
  · intro ap_data l hl
    rw [extract_jwt_arr ap_data l hl]
    cases hh : ((l.map spec_scan_candidates).flatten).head? with
    | none => right; rfl
    | some s =>
      left
      refine ⟨s, rfl, ?_⟩
      have hmem : s ∈ (l.map spec_scan_candidates).flatten := by
        cases hfl : (l.map spec_scan_candidates).flatten with
        | nil => rw [hfl] at hh; cases hh
        | cons a as =>
          rw [hfl] at hh
          simp only [List.head?_cons, Option.some.injEq] at hh
          subst hh
          exact List.mem_cons_self _ _
      rcases List.mem_flatten.mp hmem with ⟨cands, hc, hs⟩
      rcases List.mem_map.mp hc with ⟨e, _, rfl⟩
      exact mem_spec_candidates_jwt hs

/-- C10, witness: a collection mixing every non-string JSON shape with one
well-formed JWT string returns that string, and one with no strings at all
fails with `JwtNotFound`; `is_jwt` rejects a concrete non-string. -/
theorem extract_jwt_total_witness :
    is_jwt (Json.num 5) = false ∧
    extract_jwt (Json.obj [("Tokens",
        Json.arr [Json.null, Json.bool true, Json.num 3, Json.arr [],
          Json.obj [("x", Json.null)], Json.str "a.b.c"])]) = .ok "a.b.c" ∧
    extract_jwt (Json.obj [("Tokens", Json.arr [Json.null, Json.num 2])]) =
      .error .JwtNotFound := by
  refine ⟨extract_jwt_total.1 (Json.num 5) (fun s h => Json.noConfusion h), ?_, ?_⟩
  · rcases extract_jwt_total.2 (Json.obj [("Tokens",
        Json.arr [Json.null, Json.bool true, Json.num 3, Json.arr [],
          Json.obj [("x", Json.null)], Json.str "a.b.c"])])
        [Json.null, Json.bool true, Json.num 3, Json.arr [],
          Json.obj [("x", Json.null)], Json.str "a.b.c"] rfl with h | h
    · rcases h with ⟨s, hs, _⟩
      rw [hs]
      rw [show extract_jwt (Json.obj [("Tokens",
        Json.arr [Json.null, Json.bool true, Json.num 3, Json.arr [],
          Json.obj [("x", Json.null)], Json.str "a.b.c"])]) = .ok "a.b.c" from rfl] at hs
      cases hs
      rfl
    · exact absurd h (by intro hcontra; cases hcontra)
  · rcases extract_jwt_total.2 (Json.obj [("Tokens", Json.arr [Json.null, Json.num 2])])
        [Json.null, Json.num 2] rfl with h | h
    · rcases h with ⟨s, hs, _⟩
      rw [show extract_jwt (Json.obj [("Tokens", Json.arr [Json.null, Json.num 2])]) =
        .error .JwtNotFound from rfl] at hs
      cases hs
    · exact h

/-- C1: when the first token-fetch attempt fails, `fetch_token_with_retry`
invalidates the cache and performs exactly one more attempt (two in
total, never a third); when that retry also fails, it fails with the
wrapping fetch error around the second attempt's cause and leaves the
token file absent. -/
theorem fetch_token_with_retry_policy :
    ∀ (attempts : Nat → Except Err TokenData) (file : Option Json) (e1 : Err),
      attempts 0 = .error e1 →
      (fetch_token_with_retry attempts file).2.2 = 2 ∧
      (∀ e2, attempts 1 = .error e2 →
        fetch_token_with_retry attempts file =
          (.error (.FetchError e2), none, 2)) := by
  intro attempts file e1 h0
  constructor
  · simp only [fetch_token_with_retry, h0]
    cases h1 : attempts 1 <;> simp
  · intro e2 h1
    simp [fetch_token_with_retry, h0, h1]

/-- C1, witness: a login flow that fails on both attempts surfaces the
wrapping fetch error around the second cause, removes the cache file, and
stops after two attempts. -/
theorem fetch_token_with_retry_policy_witness :
    fetch_token_with_retry
        (fun i => if i = 0 then .error (.LoginFlowFailure "first")
                  else .error (.LoginFlowFailure "second"))
        (some (Json.obj [("jwt", Json.str "a.b.c")])) =
      (.error (.FetchError (.LoginFlowFailure "second")), none, 2) :=
  (fetch_token_with_retry_policy
      (fun i => if i = 0 then .error (.LoginFlowFailure "first")
                else .error (.LoginFlowFailure "second"))
      (some (Json.obj [("jwt", Json.str "a.b.c")]))
      (.LoginFlowFailure "first") rfl).2 (.LoginFlowFailure "second") rfl

/-- C3: a persisted record that passes the structural checks and whose
resolved payload carries an `exp` claim convertible to a number with the
current time at or past that instant makes `read_existing_token` fail
with the stale-token error; and `read_existing_token` never returns a
record whose `exp` claim is at or before the current time. -/
theorem load_never_returns_expired :
    (∀ (fields : List (String × Json)) (jwt : String)
        (payload : List (String × Json)) (nw : Bool) (now exp : Int),
        pyGet (Json.obj fields) "jwt" = Json.str jwt →
        is_jwt (Json.str jwt) = true →
        resolve_payload (Json.obj fields) jwt = .ok (payload, nw) →
        pyFloat (pyGetF payload "exp") = some exp →
        exp ≤ now →
        read_existing_token (some (Json.obj fields)) now = .error .StaleToken) ∧
    (∀ (file : Option Json) (now : Int) (r : StoredRec),
        read_existing_token file now = .ok (some r) →
        ∀ exp : Int, pyFloat (pyGetF r.payload "exp") = some exp → now < exp) := by
  constructor
  · intro fields jwt payload nw now exp hjwt hisjwt hres hexp hle
    have hexpired : is_payload_expired payload now = true := by
      simp only [is_payload_expired]
      cases hval : pyGetF payload "exp" with
      | null => rw [hval] at hexp; cases hexp
      | bool b => rw [hval] at hexp; simp only [hexp]; simpa using hle
      | num n => rw [hval] at hexp; simp only [hexp]; simpa using hle
      | str s => rw [hval] at hexp; simp only [hexp]; simpa using hle
      | arr l => rw [hval] at hexp; cases hexp
      | obj f => rw [hval] at hexp; cases hexp
    simp [read_existing_token, hjwt, hisjwt, hres, hexpired]
  · intro file now r hr exp hexp
    by_contra hlt
    push_neg at hlt
    simp only [read_existing_token] at hr
    repeat' split at hr
    all_goals simp at hr
    rename_i payload nw hres hexpired htruthy
    have hpay : r.payload = payload := by
      rw [← hr]
    rw [hpay] at hexp
    apply hexpired
    simp only [is_payload_expired]
    cases hval : pyGetF payload "exp" with
    | null => rw [hval] at hexp; cases hexp
    | bool b => rw [hval] at hexp; simp only [hexp]; simpa using hlt
    | num n => rw [hval] at hexp; simp only [hexp]; simpa using hlt
    | str s => rw [hval] at hexp; simp only [hexp]; simpa using hlt
    | arr l => rw [hval] at hexp; cases hexp
    | obj f => rw [hval] at hexp; cases hexp

/-- C3, witness: a structurally valid record whose `exp` is at the current
time yields the stale-token error. -/
theorem load_never_returns_expired_witness :
    read_existing_token
        (some (Json.obj [("jwt", Json.str "a.b.c"), ("tenant", Json.str "t1"),
          ("jwt_payload", Json.obj [("exp", Json.num 100)])])) 100 =
      .error .StaleToken :=
  load_never_returns_expired.1
    [("jwt", Json.str "a.b.c"), ("tenant", Json.str "t1"),
      ("jwt_payload", Json.obj [("exp", Json.num 100)])]
    "a.b.c" [("exp", Json.num 100)] false 100 100 rfl rfl rfl rfl (le_refl 100)

/-- C4: whenever the cache load succeeds, `run` serves the cached record
with zero login-flow runs, rewriting the file first exactly when the
record was self-healed (its payload was re-derived from the JWT). -/
theorem run_cache_hit :
    ∀ (file : Option Json) (now : Int) (login password : String)
      (attempts : Nat → Except Err TokenData) (r : StoredRec),
      read_existing_token file now = .ok (some r) →
      run file now login password attempts =
        { result := .ok ⟨r.jwt, r.tenant, r.payload⟩
          finalFile :=
            if r.needs_write then some (write_token_file r.jwt r.tenant r.payload)
            else file
          flowRuns := 0 } := by
  intro file now login password attempts r h
  by_cases hnw : r.needs_write <;>
    simp [run, run_cache_phase, h, hnw]

/-- C4, witness: a fresh self-healed record (stored file lacks a decoded
payload) is served from cache with zero flow runs and the file rewritten
with the derived payload; the login flow oracle is never consulted. -/
theorem run_cache_hit_witness :
    run (some (Json.obj [("jwt", Json.str "h.eyJ0ZW5hbnQiOiJhYmMifQ.s")])) 0 "" ""
        (fun _ => .error (.LoginFlowFailure "never runs")) =
      { result := .ok ⟨"h.eyJ0ZW5hbnQiOiJhYmMifQ.s", "abc", [("tenant", Json.str "abc")]⟩
        finalFile := some (write_token_file "h.eyJ0ZW5hbnQiOiJhYmMifQ.s" "abc"
          [("tenant", Json.str "abc")])
        flowRuns := 0 } := by
  have h := run_cache_hit
    (some (Json.obj [("jwt", Json.str "h.eyJ0ZW5hbnQiOiJhYmMifQ.s")])) 0 "" ""
    (fun _ => .error (.LoginFlowFailure "never runs"))
    ⟨"h.eyJ0ZW5hbnQiOiJhYmMifQ.s", "abc", [("tenant", Json.str "abc")], true⟩ (by rfl)
  simpa using h

/-- C5, counterexample: a persisted record that fails structural
validation (its `jwt` field is not a well-formed JWT) makes the load
return "absent" WITHOUT raising, so the orchestrator's cache phase leaves
the invalid file in place rather than deleting it before further
processing. -/
theorem cache_phase_keeps_invalid_file :
    read_existing_token (some (Json.obj [("jwt", Json.str "bad")])) 0 = .ok none ∧
    run_cache_phase (some (Json.obj [("jwt", Json.str "bad")])) 0 =
      (none, some (Json.obj [("jwt", Json.str "bad")])) :=
  ⟨rfl, rfl⟩

/-- C5, amended: the cache phase deletes the persisted file exactly when
the load RAISES (expiry failure, tenant-derivation failure, or a payload
re-derivation error); structural-validation failures merely report the
cache as absent and leave the file untouched, as does a successful load. -/
theorem cache_phase_delete_iff :
    ∀ (file : Option Json) (now : Int),
      (∀ e, read_existing_token file now = .error e →
        run_cache_phase file now = (none, none)) ∧
      (∀ v, read_existing_token file now = .ok v →
        run_cache_phase file now = (v, file)) := by
  intro file now
  constructor
  · intro e h
    simp [run_cache_phase, h]
  · intro v h
    simp [run_cache_phase, h]

/-- C5, witness for the amended theorem: an expired record raises, and the
cache phase deletes the file; an invalid-jwt record loads as absent and
the file survives. -/
theorem cache_phase_delete_iff_witness :
    run_cache_phase
        (some (Json.obj [("jwt", Json.str "a.b.c"), ("tenant", Json.str "t1"),
          ("jwt_payload", Json.obj [("exp", Json.num 100)])])) 100 = (none, none) ∧
    run_cache_phase (some (Json.obj [("jwt", Json.str "nojwt")])) 100 =
      (none, some (Json.obj [("jwt", Json.str "nojwt")])) :=
  ⟨(cache_phase_delete_iff
      (some (Json.obj [("jwt", Json.str "a.b.c"), ("tenant", Json.str "t1"),
        ("jwt_payload", Json.obj [("exp", Json.num 100)])])) 100).1 .StaleToken rfl,
    (cache_phase_delete_iff
      (some (Json.obj [("jwt", Json.str "nojwt")])) 100).2 none rfl⟩

lemma findSome?_guard (l : List Elem) (p : Elem → Bool) :
    (l.findSome? fun e => if p e then some e.id else none) =
      (l.find? p).map Elem.id := by
  induction l with
  | nil => rfl
  | cons e es ih =>
    by_cases h : p e <;> simp [List.findSome?_cons, List.find?_cons, h, ih]

lemma findSome?_flatten_map (sels : List String) (g : String → List Elem)
    (f : Elem → Option Nat) :
    (sels.findSome? fun s => (g s).findSome? f) =
      ((sels.map g).flatten).findSome? f := by
  induction sels with
  | nil => rfl
  | cons s ss ih =>
    simp only [List.findSome?_cons, List.map_cons, List.flatten_cons,
      List.findSome?_append]
    cases h : (g s).findSome? f <;> simp [h, ih, Option.or]

lemma fill_by_selectors_eq_spec (page : Page) (sels : List String)
    (field_name : String) :
    fill_by_selectors page sels field_name =
      match spec_first_visible page sels with
      | some e => .ok e.id
      | none => .error (.FieldNotFound field_name) := by
  simp only [fill_by_selectors, spec_first_visible]
  rw [findSome?_flatten_map sels page.bySelector
    (fun e => if e.visible && e.fillOk then some e.id else none)]
  rw [findSome?_guard ((sels.map page.bySelector).flatten)
    (fun e => e.visible && e.fillOk)]
  cases ((sels.map page.bySelector).flatten).find? (fun e => e.visible && e.fillOk) <;>
    simp

lemma fill_by_labels_none_of_empty (page : Page) (labels : List String)
    (h : ∀ lab ∈ labels, page.byLabel lab = []) :
    fill_by_labels page labels = none := by
  induction labels with
  | nil => rfl
  | cons lab labs ih =>
    simp only [fill_by_labels, List.findSome?_cons, h lab (List.mem_cons_self _ _)]
    exact ih fun x hx => h x (List.mem_cons_of_mem _ hx)

/-- C8, counterexample: a semantic label whose FIRST match is invisible
and rejects the fill, but whose SECOND match is visible and fillable.
The claim says the semantic phase acts on the first VISIBLE match, so
resolution should fill that second element; the code instead attempts
`locator.first.fill` with no visibility check, fails, abandons the whole
label, and — with no structural selector matching — resolution fails as
not-found. -/
theorem fill_by_labels_first_visible_refuted :
    (∃ e ∈ Page.byLabel
        { byLabel := fun _ => [⟨1, false, false⟩, ⟨2, true, true⟩]
          bySelector := fun _ => [] } "Login",
        e.visible = true ∧ e.fillOk = true) ∧
    fill_field
        { byLabel := fun _ => [⟨1, false, false⟩, ⟨2, true, true⟩]
          bySelector := fun _ => [] } ["Login"] [] "login" =
      .error (.FieldNotFound "login") :=
  ⟨⟨⟨2, true, true⟩, by simp, rfl, rfl⟩, rfl⟩

/-- C8, amended: the semantic phase skips labels with zero matches and
attempts the fill on the FIRST match of each label (no visibility check),
moving to the next label when that fill fails; when no semantic label
yields a successful fill — in particular when every label has zero
matches — resolution falls through to the structural selectors in
declared priority order and fills the first visible match that accepts
the fill; in particular when the third structural entry holds the first
visible match that element receives the fill, and full exhaustion fails
as not-found. -/
theorem fill_field_fallback :
    (∀ (page : Page) (lab : String) (labels sels : List String)
        (field_name : String) (e : Elem) (es : List Elem),
        page.byLabel lab = e :: es → e.fillOk = true →
        fill_field page (lab :: labels) sels field_name = .ok e.id) ∧
    (∀ (page : Page) (labels selectors : List String) (field_name : String),
        (∀ lab ∈ labels, page.byLabel lab = []) →
        fill_field page labels selectors field_name =
          match spec_first_visible page selectors with
          | some e => .ok e.id
          | none => .error (.FieldNotFound field_name)) ∧
    fill_field
        { byLabel := fun _ => []
          bySelector := fun s =>
            if s = "s3" then [⟨7, false, true⟩, ⟨3, true, true⟩]
            else [⟨9, false, true⟩] } ["Login"] ["s1", "s2", "s3"] "login" =
      .ok 3 ∧
    fill_field
        { byLabel := fun _ => []
          bySelector := fun _ => [⟨9, false, true⟩] } ["Login"] ["s1", "s2"] "login" =
      .error (.FieldNotFound "login") := by
  refine ⟨?_, ?_, rfl, rfl⟩
  · intro page lab labels sels field_name e es hlab hfill
    simp [fill_field, fill_by_labels, List.findSome?_cons, hlab, hfill]
  · intro page labels selectors field_name h
    simp only [fill_field, fill_by_labels_none_of_empty page labels h]
    exact fill_by_selectors_eq_spec page selectors field_name

/-- C8, witness for the amended theorem: the first-match semantic fill at
a concrete page, and the structural fall-through at a page whose labels
are all empty and whose second selector holds the first visible match. -/
theorem fill_field_fallback_witness :
    fill_field
        { byLabel := fun l => if l = "Login" then [⟨4, true, true⟩] else []
          bySelector := fun _ => [] } ["Login"] ["s1"] "login" = .ok 4 ∧
    fill_field
        { byLabel := fun _ => []
          bySelector := fun s => if s = "s2" then [⟨5, true, true⟩] else [] }
        ["Login", "E-mail"] ["s1", "s2"] "login" = .ok 5 := by
  constructor
  · exact fill_field_fallback.1
      { byLabel := fun l => if l = "Login" then [⟨4, true, true⟩] else []
        bySelector := fun _ => [] } "Login" [] ["s1"] "login" ⟨4, true, true⟩ []
      (by simp) rfl
  · have h := fill_field_fallback.2.1
      { byLabel := fun _ => []
        bySelector := fun s => if s = "s2" then [⟨5, true, true⟩] else [] }
      ["Login", "E-mail"] ["s1", "s2"] "login" (by intro lab _; rfl)
    simpa [spec_first_visible] using h

lemma b64_decode_encode : ∀ n, n < 64 → b64DecodeChar (b64EncodeChar n) = some n := by
  decide

lemma b64EncodeChar_ne_pad : ∀ n, n < 64 → b64EncodeChar n ≠ '=' := by
  decide

lemma b64EncodeChar_ne_dot : ∀ n, n < 64 → b64EncodeChar n ≠ '.' := by
  decide

lemma b64_roundtrip (bs : List Nat) (h : ∀ x ∈ bs, x < 256) :
    b64decode (b64encode bs ++
      List.replicate ((4 - (b64encode bs).length % 4) % 4) '=') = some bs := by
  induction bs using b64encode.induct with
  | case1 => rfl
  | case2 a =>
    have ha : a < 256 := h a (by simp)
    have h1 := b64_decode_encode (a / 4) (by omega)
    have h2 := b64_decode_encode (a % 4 * 16) (by omega)
    simp only [b64encode, List.length_cons, List.length_nil]
    have hpad : (4 - 2 % 4) % 4 = 2 := by norm_num
    rw [hpad]
    simp only [List.replicate, List.cons_append, List.nil_append]
    simp only [b64decode, h1, h2, reduceIte, and_self, Option.some.injEq,
      List.cons.injEq, and_true]
    omega
  | case3 a b =>
    have ha : a < 256 := h a (by simp)
    have hb : b < 256 := h b (by simp)
    have h1 := b64_decode_encode (a / 4) (by omega)
    have h2 := b64_decode_encode (a % 4 * 16 + b / 16) (by omega)
    have h3 := b64_decode_encode (b % 16 * 4) (by omega)
    have hne3 := b64EncodeChar_ne_pad (b % 16 * 4) (by omega)
    simp only [b64encode, List.length_cons, List.length_nil]
    have hpad : (4 - 3 % 4) % 4 = 1 := by norm_num
    rw [hpad]
    simp only [List.replicate, List.cons_append, List.nil_append]
    simp only [b64decode, h1, h2]
    rw [if_neg hne3]
    simp only [h3, reduceIte, Option.some.injEq, List.cons.injEq, and_true]
    constructor <;> omega
  | case4 a b c rest ih =>
    have ha : a < 256 := h a (by simp)
    have hb : b < 256 := h b (by simp)
    have hc : c < 256 := h c (by simp)
    have hrest : ∀ x ∈ rest, x < 256 := fun x hx => h x (by simp [hx])
    have ihx := ih hrest
    have h1 := b64_decode_encode (a / 4) (by omega)
    have h2 := b64_decode_encode (a % 4 * 16 + b / 16) (by omega)
    have h3 := b64_decode_encode (b % 16 * 4 + c / 64) (by omega)
    have h4 := b64_decode_encode (c % 64) (by omega)
    have hne3 := b64EncodeChar_ne_pad (b % 16 * 4 + c / 64) (by omega)
    have hne4 := b64EncodeChar_ne_pad (c % 64) (by omega)
    simp only [b64encode, List.length_cons]
    have hpad : (4 - ((b64encode rest).length + 1 + 1 + 1 + 1) % 4) % 4 =
        (4 - (b64encode rest).length % 4) % 4 := by omega
    rw [hpad]
    simp only [List.cons_append]
    simp only [b64decode, h1, h2]
    rw [if_neg hne3]
    simp only [h3]
    rw [if_neg hne4]
    simp only [h4, ihx, Option.some.injEq, List.cons.injEq, and_true,
      eq_self_iff_true]
    omega

lemma hexDig_ascii : ∀ d, d < 16 → (hexDig d).toNat < 128 := by decide

lemma hexVal_hexDig : ∀ d, d < 16 → hexVal (hexDig d) = some d := by decide

lemma char_lt_128_of_toNat {c : Char} (h32 : 32 ≤ c.toNat) (h127 : c.toNat < 127) :
    c.toNat < 128 := by omega

lemma hex_escape_ascii (n : Nat) : ∀ x ∈ '\\' :: 'u' :: hex4 n, x.toNat < 128 := by
  intro x hx
  simp only [hex4, List.mem_cons, List.not_mem_nil, or_false] at hx
  rcases hx with rfl | rfl | rfl | rfl | rfl | rfl
  · decide
  · decide
  all_goals exact hexDig_ascii _ (Nat.mod_lt _ (by norm_num))

lemma escapeChar_ascii (c : Char) : ∀ x ∈ escapeChar c, x.toNat < 128 := by
  intro x hx
  simp only [escapeChar] at hx
  split at hx
  · simp only [List.mem_cons, List.not_mem_nil, or_false] at hx
    rcases hx with rfl | rfl <;> decide
  · split at hx
    · simp only [List.mem_cons, List.not_mem_nil, or_false] at hx
      rcases hx with rfl | rfl <;> decide
    · split at hx
      · split at hx
        · exact hex_escape_ascii _ x hx
        · rcases List.mem_append.mp hx with h | h
          · exact hex_escape_ascii _ x h
          · exact hex_escape_ascii _ x h
      · simp only [List.mem_cons, List.not_mem_nil, or_false] at hx
        subst hx
        rename_i h1 h2 h3
        rw [not_or] at h3
        omega

lemma escapeStr_ascii (l : List Char) : ∀ x ∈ escapeStr l, x.toNat < 128 := by
  induction l with
  | nil => intro x hx; simp [escapeStr] at hx
  | cons c cs ih =>
    intro x hx
    simp only [escapeStr, List.mem_append] at hx
    rcases hx with h | h
    · exact escapeChar_ascii c x h
    · exact ih x h

lemma digitChar_props : ∀ d, d < 10 →
    isDig (Char.ofNat (48 + d)) = true ∧ (Char.ofNat (48 + d)).toNat = 48 + d := by
  decide

lemma printNat_digits (m : Nat) : ∀ c ∈ printNat m, isDig c = true := by
  intro c hc
  simp only [printNat] at hc
  split at hc
  · simp only [List.mem_cons, List.not_mem_nil, or_false] at hc
    subst hc
    decide
  · simp only [List.mem_map, List.mem_reverse] at hc
    rcases hc with ⟨d, hd, rfl⟩
    exact (digitChar_props d (Nat.digits_lt_base (by norm_num) hd)).1

lemma printNat_ascii (m : Nat) : ∀ c ∈ printNat m, c.toNat < 128 := by
  intro c hc
  have h := printNat_digits m c hc
  simp only [isDig, Bool.and_eq_true, decide_eq_true_eq] at h
  omega

lemma printNat_ne_nil (m : Nat) : printNat m ≠ [] := by
  simp only [printNat]
  split
  · simp
  · rename_i h
    simp [Nat.digits_ne_nil_iff_ne_zero.mpr h]

lemma digsToNat_append_one (l : List Char) (c : Char) :
    digsToNat (l ++ [c]) = digsToNat l * 10 + (c.toNat - 48) := by
  simp [digsToNat, List.foldl_append]

lemma digsToNat_rev (ds : List Nat) (h : ∀ d ∈ ds, d < 10) :
    digsToNat ((ds.reverse).map fun d => Char.ofNat (48 + d)) =
      Nat.ofDigits 10 ds := by
  induction ds with
  | nil => rfl
  | cons d tl ih =>
    simp only [List.reverse_cons, List.map_append, List.map_cons, List.map_nil]
    rw [digsToNat_append_one]
    rw [ih fun x hx => h x (List.mem_cons_of_mem _ hx)]
    rw [(digitChar_props d (h d (List.mem_cons_self _ _))).2]
    rw [Nat.ofDigits_cons]
    omega

lemma digsToNat_printNat (m : Nat) : digsToNat (printNat m) = m := by
  simp only [printNat]
  split
  · rename_i h; subst h; rfl
  · rw [digsToNat_rev _ fun d hd => Nat.digits_lt_base (by norm_num) hd]
    exact Nat.ofDigits_digits 10 m

lemma takeDigs_append (l rest : List Char) (hl : ∀ c ∈ l, isDig c = true)
    (hr : restOk rest = true) : takeDigs (l ++ rest) = (l, rest) := by
  induction l with
  | nil =>
    cases rest with
    | nil => rfl
    | cons c cs =>
      simp only [restOk, Bool.not_eq_true'] at hr
      simp [takeDigs, hr]
  | cons c cs ih =>
    simp only [List.cons_append, takeDigs, hl c (List.mem_cons_self _ _)]
    simp [ih fun x hx => hl x (List.mem_cons_of_mem _ hx)]

lemma char_bounds (c : Char) :
    c.toNat < 55296 ∨ (57343 < c.toNat ∧ c.toNat < 1114112) := by
  have h := c.valid
  simp only [UInt32.isValidChar, Nat.isValidChar] at h
  have : c.toNat = c.val.toNat := rfl
  omega

lemma hex4Val_hex4 (n : Nat) (hn : n < 65536) :
    hex4Val (hexDig (n / 4096 % 16)) (hexDig (n / 256 % 16))
      (hexDig (n / 16 % 16)) (hexDig (n % 16)) = some n := by
  have hd1 := hexVal_hexDig (n / 4096 % 16) (Nat.mod_lt _ (by norm_num))
  have hd2 := hexVal_hexDig (n / 256 % 16) (Nat.mod_lt _ (by norm_num))
  have hd3 := hexVal_hexDig (n / 16 % 16) (Nat.mod_lt _ (by norm_num))
  have hd4 := hexVal_hexDig (n % 16) (Nat.mod_lt _ (by norm_num))
  simp only [hex4Val, hd1, hd2, hd3, hd4]
  have hcode : n / 4096 % 16 * 4096 + n / 256 % 16 * 256 + n / 16 % 16 * 16 + n % 16
      = n := by omega
  rw [hcode]

lemma parseUEscape_basic (n : Nat) (tail : List Char) (hn : n < 65536)
    (hval : n < 55296 ∨ 57343 < n) :
    parseUEscape (hex4 n ++ tail) = some (n, tail) := by
  simp only [hex4, List.cons_append, List.nil_append]
  simp only [parseUEscape, hex4Val_hex4 n hn]
  rw [if_neg (by omega : ¬(55296 ≤ n ∧ n < 56320))]
  rw [if_neg (by omega : ¬(56320 ≤ n ∧ n < 57344))]

lemma parseLoSurrogate_hex (code m : Nat) (tail : List Char) (hm : m < 1024) :
    parseLoSurrogate code ('\\' :: 'u' :: (hex4 (56320 + m) ++ tail)) =
      some (65536 + (code - 55296) * 1024 + m, tail) := by
  simp only [hex4, List.cons_append, List.nil_append]
  simp only [parseLoSurrogate, hex4Val_hex4 (56320 + m) (by omega)]
  rw [if_pos (by omega : 56320 ≤ 56320 + m ∧ 56320 + m < 57344)]
  have : 56320 + m - 56320 = m := by omega
  rw [this]

lemma parseUEscape_surrogate (q m : Nat) (tail : List Char) (hq : q < 1024)
    (hm : m < 1024) :
    parseUEscape (hex4 (55296 + q) ++
        ('\\' :: 'u' :: hex4 (56320 + m) ++ tail)) =
      some (65536 + q * 1024 + m, tail) := by
  have hunfold : hex4 (55296 + q) =
      [hexDig ((55296 + q) / 4096 % 16), hexDig ((55296 + q) / 256 % 16),
       hexDig ((55296 + q) / 16 % 16), hexDig ((55296 + q) % 16)] := rfl
  rw [hunfold]
  simp only [List.cons_append, List.nil_append]
  simp only [parseUEscape, hex4Val_hex4 (55296 + q) (by omega)]
  rw [if_pos (by omega : 55296 ≤ 55296 + q ∧ 55296 + q < 56320)]
  rw [parseLoSurrogate_hex (55296 + q) m tail hm]
  have hfinal : 55296 + q - 55296 = q := by omega
  rw [hfinal]

lemma parseStr_u (fuel : Nat) (r r2 : List Char) (n2 : Nat)
    (h : parseUEscape r = some (n2, r2)) :
    parseStrChars (fuel + 1) ('\\' :: 'u' :: r) =
      (parseStrChars fuel r2).map (fun p => (Char.ofNat n2 :: p.1, p.2)) := by
  simp only [parseStrChars, Char.reduceEq, reduceIte, h]

lemma parseStr_u_escape (fuel n : Nat) (tail : List Char) (hn : n < 65536)
    (hval : n < 55296 ∨ 57343 < n) :
    parseStrChars (fuel + 1) ('\\' :: 'u' :: hex4 n ++ tail) =
      (parseStrChars fuel tail).map (fun p => (Char.ofNat n :: p.1, p.2)) := by
  simp only [List.cons_append]
  exact parseStr_u fuel _ _ _ (parseUEscape_basic n tail hn hval)

lemma parseStr_surrogate (fuel q m : Nat) (tail : List Char) (hq : q < 1024)
    (hm : m < 1024) :
    parseStrChars (fuel + 1) (('\\' :: 'u' :: hex4 (55296 + q)) ++
        (('\\' :: 'u' :: hex4 (56320 + m)) ++ tail)) =
      (parseStrChars fuel tail).map
        (fun p => (Char.ofNat (65536 + q * 1024 + m) :: p.1, p.2)) := by
  simp only [List.cons_append]
  exact parseStr_u fuel _ _ _ (parseUEscape_surrogate q m tail hq hm)

lemma parseStr_surrogate_assoc (fuel q m : Nat) (tail : List Char) (hq : q < 1024)
    (hm : m < 1024) :
    parseStrChars (fuel + 1) ((('\\' :: 'u' :: hex4 (55296 + q)) ++
        ('\\' :: 'u' :: hex4 (56320 + m))) ++ tail) =
      (parseStrChars fuel tail).map
        (fun p => (Char.ofNat (65536 + q * 1024 + m) :: p.1, p.2)) := by
  rw [List.append_assoc]
  exact parseStr_surrogate fuel q m tail hq hm

lemma parseStrChars_escape : ∀ (l : List Char) (rest : List Char) (fuel : Nat),
    (escapeStr l).length < fuel →
    parseStrChars fuel (escapeStr l ++ '"' :: rest) = some (l, rest) := by
  intro l
  induction l with
  | nil =>
    intro rest fuel hfuel
    obtain ⟨f, rfl⟩ : ∃ f, fuel = f + 1 :=
      ⟨fuel - 1, by simp [escapeStr] at hfuel; omega⟩
    simp [escapeStr, parseStrChars]
  | cons c cs ih =>
    intro rest fuel hfuel
    rw [show escapeStr (c :: cs) = escapeChar c ++ escapeStr cs from rfl] at hfuel ⊢
    rw [List.length_append] at hfuel
    obtain ⟨f, rfl⟩ : ∃ f, fuel = f + 1 := ⟨fuel - 1, by omega⟩
    by_cases h1 : c = '"'
    · subst h1
      rw [show escapeChar '"' = ['\\', '"'] from rfl] at hfuel ⊢
      simp only [List.cons_append, List.nil_append, List.length_cons] at hfuel ⊢
      simp only [parseStrChars, Char.reduceEq, reduceIte]
      rw [ih rest f (by omega)]
      rfl
    · by_cases h2 : c = '\\'
      · subst h2
        rw [show escapeChar '\\' = ['\\', '\\'] from rfl] at hfuel ⊢
        simp only [List.cons_append, List.nil_append, List.length_cons] at hfuel ⊢
        simp only [parseStrChars, Char.reduceEq, reduceIte]
        rw [ih rest f (by omega)]
        rfl
      · by_cases h3 : c.toNat < 32 ∨ 127 ≤ c.toNat
        · by_cases h4 : c.toNat < 65536
          · rw [show escapeChar c = '\\' :: 'u' :: hex4 c.toNat by
              simp only [escapeChar, if_neg h1, if_neg h2, if_pos h3, if_pos h4]] at hfuel ⊢
            simp only [List.cons_append, List.append_assoc, hex4, List.length_cons,
              List.nil_append] at hfuel ⊢
            rw [show ('\\' :: 'u' :: (hexDig (c.toNat / 4096 % 16) ::
                hexDig (c.toNat / 256 % 16) :: hexDig (c.toNat / 16 % 16) ::
                hexDig (c.toNat % 16) :: (escapeStr cs ++ '"' :: rest)) : List Char) =
              '\\' :: 'u' :: hex4 c.toNat ++ (escapeStr cs ++ '"' :: rest) by
              simp [hex4]]
            rw [parseStr_u_escape f c.toNat _ h4 (by
              have := char_bounds c
              omega)]
            rw [ih rest f (by omega)]
            simp [Char.ofNat_toNat]
          · have hcb := char_bounds c
            have hq : (c.toNat - 65536) / 1024 < 1024 := by omega
            have hm : (c.toNat - 65536) % 1024 < 1024 :=
              Nat.mod_lt _ (by norm_num)
            rw [show escapeChar c =
                ('\\' :: 'u' :: hex4 (55296 + (c.toNat - 65536) / 1024)) ++
                ('\\' :: 'u' :: hex4 (56320 + (c.toNat - 65536) % 1024)) by
              simp only [escapeChar, if_neg h1, if_neg h2, if_pos h3,
                if_neg h4]] at hfuel ⊢
            rw [List.append_assoc]
            rw [parseStr_surrogate_assoc f ((c.toNat - 65536) / 1024)
              ((c.toNat - 65536) % 1024) (escapeStr cs ++ '"' :: rest) hq hm]
            rw [ih rest f (by
              simp only [List.length_append, List.length_cons, hex4,
                List.length_nil] at hfuel
              omega)]
            have hn : 65536 + (c.toNat - 65536) / 1024 * 1024 +
                (c.toNat - 65536) % 1024 = c.toNat := by omega
            simp only [hn, Char.ofNat_toNat, Option.map_some']
        · rw [show escapeChar c = [c] by
            simp only [escapeChar, if_neg h1, if_neg h2, if_neg h3]] at hfuel ⊢
          simp only [List.cons_append, List.nil_append, List.length_cons,
            List.length_nil] at hfuel ⊢
          simp only [parseStrChars]
          rw [if_neg h1, if_neg h2, if_neg (by push_neg at h3; omega : ¬c.toNat < 32)]
          rw [ih rest f (by omega)]
          rfl

lemma isDig_ne (c : Char) (h : isDig c = true) :
    c ≠ 'n' ∧ c ≠ 't' ∧ c ≠ 'f' ∧ c ≠ '"' ∧ c ≠ '[' ∧ c ≠ '\x7b' ∧ c ≠ '-' ∧
      c ≠ ']' ∧ c ≠ '\x7d' := by
  refine ⟨?_, ?_, ?_, ?_, ?_, ?_, ?_, ?_, ?_⟩ <;>
    (rintro rfl; exact absurd h (by decide))

lemma printInt_ne_nil (n : Int) : printInt n ≠ [] := by
  simp only [printInt]
  split
  · simp
  · exact printNat_ne_nil _

lemma printJson_head_ne (v : Json) :
    ∃ c cs, printJson v = c :: cs ∧ c ≠ ']' ∧ c ≠ '\x7d' := by
  cases v with
  | null => exact ⟨'n', _, rfl, by decide, by decide⟩
  | bool b =>
    cases b
    · exact ⟨'f', _, rfl, by decide, by decide⟩
    · exact ⟨'t', _, rfl, by decide, by decide⟩
  | num n =>
    show ∃ c cs, printInt n = c :: cs ∧ _
    simp only [printInt]
    split
    · exact ⟨'-', _, rfl, by decide, by decide⟩
    · cases hpn : printNat n.toNat with
      | nil => exact absurd hpn (printNat_ne_nil _)
      | cons c cs =>
        have hd : isDig c = true :=
          printNat_digits n.toNat c (by rw [hpn]; exact List.mem_cons_self _ _)
        have := isDig_ne c hd
        exact ⟨c, cs, rfl, this.2.2.2.2.2.2.2.1, this.2.2.2.2.2.2.2.2⟩
  | str s => exact ⟨'"', _, rfl, by decide, by decide⟩
  | arr l => exact ⟨'[', _, rfl, by decide, by decide⟩
  | obj fs => exact ⟨'\x7b', _, rfl, by decide, by decide⟩

lemma jsize_pos (v : Json) : 1 ≤ jsize v := by
  cases v <;> simp [jsize]

lemma print_ascii_all : ∀ N : Nat,
    (∀ v : Json, jsize v ≤ N → ∀ c ∈ printJson v, c.toNat < 128) ∧
    (∀ l : List Json, jsizeItems l ≤ N → ∀ c ∈ printList l, c.toNat < 128) ∧
    (∀ fs : List (String × Json), jsizeMembers fs ≤ N →
      ∀ c ∈ printMembers fs, c.toNat < 128) := by
  intro N
  induction N with
  | zero =>
    refine ⟨?_, ?_, ?_⟩
    · intro v hv
      exact absurd hv (by have := jsize_pos v; omega)
    · intro l hl c hc
      cases l with
      | nil => simp [printList] at hc
      | cons v rest => simp [jsizeItems] at hl
    · intro fs hfs c hc
      cases fs with
      | nil => simp [printMembers] at hc
      | cons kv rest =>
        obtain ⟨k, v⟩ := kv
        simp [jsizeMembers] at hfs
  | succ N ih =>
    obtain ⟨ihV, ihL, ihM⟩ := ih
    refine ⟨?_, ?_, ?_⟩
    · intro v hv c hc
      cases v with
      | null =>
        simp only [printJson] at hc
        fin_cases hc <;> decide
      | bool b =>
        cases b <;> simp only [printJson] at hc <;> fin_cases hc <;> decide
      | num n =>
        simp only [printJson, printInt] at hc
        split at hc
        · rcases List.mem_cons.mp hc with rfl | h
          · decide
          · exact printNat_ascii _ c h
        · exact printNat_ascii _ c hc
      | str s =>
        simp only [printJson] at hc
        rcases List.mem_cons.mp hc with rfl | h
        · decide
        · rcases List.mem_append.mp h with h | h
          · exact escapeStr_ascii _ c h
          · simp only [List.mem_cons, List.not_mem_nil, or_false] at h
            subst h; decide
      | arr l =>
        simp only [printJson] at hc
        rcases List.mem_cons.mp hc with rfl | h
        · decide
        · rcases List.mem_append.mp h with h | h
          · exact ihL l (by simp only [jsize] at hv; omega) c h
          · simp only [List.mem_cons, List.not_mem_nil, or_false] at h
            subst h; decide
      | obj fs =>
        simp only [printJson] at hc
        rcases List.mem_cons.mp hc with rfl | h
        · decide
        · rcases List.mem_append.mp h with h | h
          · exact ihM fs (by simp only [jsize] at hv; omega) c h
          · simp only [List.mem_cons, List.not_mem_nil, or_false] at h
            subst h; decide
    · intro l hl c hc
      cases l with
      | nil => simp [printList] at hc
      | cons v rest =>
        cases rest with
        | nil =>
          simp only [printList] at hc
          exact ihV v (by simp only [jsizeItems] at hl; omega) c hc
        | cons w ws =>
          simp only [printList] at hc
          rcases List.mem_append.mp hc with h | h
          · exact ihV v (by simp only [jsizeItems] at hl; omega) c h
          · rcases List.mem_cons.mp h with rfl | h
            · decide
            · exact ihL (w :: ws)
                (by simp only [jsizeItems] at hl ⊢; omega) c h
    · intro fs hfs c hc
      cases fs with
      | nil => simp [printMembers] at hc
      | cons kv rest =>
        obtain ⟨k, v⟩ := kv
        cases rest with
        | nil =>
          simp only [printMembers] at hc
          rcases List.mem_cons.mp hc with rfl | h
          · decide
          · rcases List.mem_append.mp h with h | h
            · exact escapeStr_ascii _ c h
            · rcases List.mem_cons.mp h with rfl | h
              · decide
              · rcases List.mem_cons.mp h with rfl | h
                · decide
                · exact ihV v (by simp only [jsizeMembers] at hfs; omega) c h
        | cons kw ws =>
          simp only [printMembers] at hc
          rcases List.mem_append.mp hc with h | h
          · rcases List.mem_cons.mp h with rfl | h
            · decide
            · rcases List.mem_append.mp h with h | h
              · exact escapeStr_ascii _ c h
              · rcases List.mem_cons.mp h with rfl | h
                · decide
                · rcases List.mem_cons.mp h with rfl | h
                  · decide
                  · exact ihV v (by simp only [jsizeMembers] at hfs; omega) c h
          · rcases List.mem_cons.mp h with rfl | h
            · decide
            · exact ihM (kw :: ws)
                (by simp only [jsizeMembers] at hfs ⊢; omega) c h

lemma printJson_ascii (v : Json) : ∀ c ∈ printJson v, c.toNat < 128 :=
  (print_ascii_all (jsize v)).1 v (le_refl _)

lemma jsize_le_print : ∀ N : Nat,
    (∀ v : Json, jsize v ≤ N → jsize v ≤ (printJson v).length) ∧
    (∀ l : List Json, jsizeItems l ≤ N → jsizeItems l ≤ (printList l).length + 1) ∧
    (∀ fs : List (String × Json), jsizeMembers fs ≤ N →
      jsizeMembers fs ≤ (printMembers fs).length + 1) := by
  intro N
  induction N with
  | zero =>
    refine ⟨?_, ?_, ?_⟩
    · intro v hv
      exact absurd hv (by have := jsize_pos v; omega)
    · intro l hl
      cases l with
      | nil => simp [jsizeItems]
      | cons v rest => simp [jsizeItems] at hl
    · intro fs hfs
      cases fs with
      | nil => simp [jsizeMembers]
      | cons kv rest =>
        obtain ⟨k, v⟩ := kv
        simp [jsizeMembers] at hfs
  | succ N ih =>
    obtain ⟨ihV, ihL, ihM⟩ := ih
    refine ⟨?_, ?_, ?_⟩
    · intro v hv
      cases v with
      | null => simp [printJson, jsize]
      | bool b => cases b <;> simp [printJson, jsize]
      | num n =>
        have := List.length_pos.mpr (printInt_ne_nil n)
        simp only [printJson, jsize]
        omega
      | str s => simp [printJson, jsize]
      | arr l =>
        have := ihL l (by simp only [jsize] at hv; omega)
        simp only [printJson, jsize, List.length_cons, List.length_append,
          List.length_cons, List.length_nil]
        omega
      | obj fs =>
        have := ihM fs (by simp only [jsize] at hv; omega)
        simp only [printJson, jsize, List.length_cons, List.length_append,
          List.length_cons, List.length_nil]
        omega
    · intro l hl
      cases l with
      | nil => simp [jsizeItems]
      | cons v rest =>
        cases rest with
        | nil =>
          have := ihV v (by simp only [jsizeItems] at hl; omega)
          simp only [printList, jsizeItems, jsizeItems]
          omega
        | cons w ws =>
          have h1 := ihV v (by simp only [jsizeItems] at hl; omega)
          have h2 := ihL (w :: ws) (by simp only [jsizeItems] at hl ⊢; omega)
          simp only [printList, jsizeItems, List.length_append, List.length_cons]
          simp only [jsizeItems] at h2
          omega
    · intro fs hfs
      cases fs with
      | nil => simp [jsizeMembers]
      | cons kv rest =>
        obtain ⟨k, v⟩ := kv
        cases rest with
        | nil =>
          have := ihV v (by simp only [jsizeMembers] at hfs; omega)
          simp only [printMembers, jsizeMembers, jsizeMembers, List.length_cons,
            List.length_append]
          omega
        | cons kw ws =>
          have h1 := ihV v (by simp only [jsizeMembers] at hfs; omega)
          have h2 := ihM (kw :: ws) (by simp only [jsizeMembers] at hfs ⊢; omega)
          simp only [printMembers, jsizeMembers, List.length_append,
            List.length_cons]
          simp only [jsizeMembers] at h2
          omega

lemma parseDigits_print (m : Nat) (rest : List Char) (hr : restOk rest = true) :
    parseDigits (printNat m ++ rest) = some (m, rest) := by
  have ht := takeDigs_append (printNat m) rest (printNat_digits m) hr
  simp only [parseDigits, ht]
  rw [if_neg (by simp [List.isEmpty_iff, printNat_ne_nil m])]
  rw [digsToNat_printNat]

lemma parseValue_null (f : Nat) (rest : List Char) :
    parseValue (f + 1) ('n' :: 'u' :: 'l' :: 'l' :: rest) = some (.null, rest) := by
  simp [parseValue]

lemma parseValue_true (f : Nat) (rest : List Char) :
    parseValue (f + 1) ('t' :: 'r' :: 'u' :: 'e' :: rest) =
      some (.bool true, rest) := by
  simp [parseValue]

lemma parseValue_false (f : Nat) (rest : List Char) :
    parseValue (f + 1) ('f' :: 'a' :: 'l' :: 's' :: 'e' :: rest) =
      some (.bool false, rest) := by
  simp [parseValue]

lemma parseValue_str (f : Nat) (rest2 l r : List Char)
    (h : parseStrChars (rest2.length + 1) rest2 = some (l, r)) :
    parseValue (f + 1) ('"' :: rest2) = some (.str (String.mk l), r) := by
  simp [parseValue, h]

lemma parseValue_arr_nil (f : Nat) (rest : List Char) :
    parseValue (f + 1) ('[' :: ']' :: rest) = some (.arr [], rest) := by
  simp [parseValue]

lemma parseValue_obj_nil (f : Nat) (rest : List Char) :
    parseValue (f + 1) ('\x7b' :: '\x7d' :: rest) = some (.obj [], rest) := by
  simp [parseValue]

lemma parseValue_arr_ne (f : Nat) (c : Char) (tail : List Char) (hc : c ≠ ']') :
    parseValue (f + 1) ('[' :: c :: tail) =
      match parseItems f (c :: tail) with
      | some (items, r) => some (.arr items, r)
      | none => none := by
  simp only [parseValue, Char.reduceEq, reduceIte]
  split
  · rename_i r heq
    injection heq with h1 h2
    exact absurd h1 hc
  · rfl

lemma parseValue_obj_ne (f : Nat) (c : Char) (tail : List Char) (hc : c ≠ '\x7d') :
    parseValue (f + 1) ('\x7b' :: c :: tail) =
      match parseMembers f (c :: tail) with
      | some (fields, r) => some (.obj fields, r)
      | none => none := by
  simp only [parseValue, Char.reduceEq, reduceIte]
  split
  · rename_i r heq
    injection heq with h1 h2
    exact absurd h1 hc
  · rfl

lemma parseValue_neg (f : Nat) (cs : List Char) (m : Nat) (r : List Char)
    (h : parseDigits cs = some (m, r)) :
    parseValue (f + 1) ('-' :: cs) = some (.num (-(m : Int)), r) := by
  simp [parseValue, h]

lemma parseValue_dig (f : Nat) (c : Char) (cs : List Char) (hc : isDig c = true)
    (m : Nat) (r : List Char) (h : parseDigits (c :: cs) = some (m, r)) :
    parseValue (f + 1) (c :: cs) = some (.num (m : Int), r) := by
  have hne := isDig_ne c hc
  simp only [parseValue]
  rw [if_neg hne.1, if_neg hne.2.1, if_neg hne.2.2.1, if_neg hne.2.2.2.1,
      if_neg hne.2.2.2.2.1, if_neg hne.2.2.2.2.2.1, if_neg hne.2.2.2.2.2.2.1,
      if_pos hc, h]

lemma parseValue_num (f : Nat) (n : Int) (rest : List Char)
    (hr : restOk rest = true) :
    parseValue (f + 1) (printInt n ++ rest) = some (.num n, rest) := by
  simp only [printInt]
  split
  · rename_i hn
    rw [List.cons_append,
      parseValue_neg f _ (-n).toNat rest (parseDigits_print _ rest hr)]
    have hmn : (((-n).toNat : Int)) = -n := Int.toNat_of_nonneg (by omega)
    rw [hmn, neg_neg]
  · rename_i hn
    cases hpn : printNat n.toNat with
    | nil => exact absurd hpn (printNat_ne_nil _)
    | cons c cs =>
      have hc : isDig c = true :=
        printNat_digits _ c (by rw [hpn]; exact List.mem_cons_self _ _)
      have hpd : parseDigits (c :: (cs ++ rest)) = some (n.toNat, rest) := by
        have h0 := parseDigits_print n.toNat rest hr
        rw [hpn, List.cons_append] at h0
        exact h0
      rw [show c :: cs ++ rest = c :: (cs ++ rest) from rfl,
        parseValue_dig f c (cs ++ rest) hc n.toNat rest hpd]
      have hmn : ((n.toNat : Nat) : Int) = n := Int.toNat_of_nonneg (by omega)
      rw [hmn]

lemma parseItems_comma (f : Nat) (cs r : List Char) (v : Json)
    (h : parseValue f cs = some (v, ',' :: r)) :
    parseItems (f + 1) cs =
      match parseItems f r with
      | some (vs, r2) => some (v :: vs, r2)
      | none => none := by
  simp [parseItems, h]

lemma parseItems_close (f : Nat) (cs r : List Char) (v : Json)
    (h : parseValue f cs = some (v, ']' :: r)) :
    parseItems (f + 1) cs = some ([v], r) := by
  simp [parseItems, h]

lemma parseMembers_comma (f : Nat) (k r1 r2 rest2 : List Char) (v : Json)
    (hk : parseStrChars (rest2.length + 1) rest2 = some (k, ':' :: r1))
    (hv : parseValue f r1 = some (v, ',' :: r2)) :
    parseMembers (f + 1) ('"' :: rest2) =
      match parseMembers f r2 with
      | some (kvs, r3) => some ((String.mk k, v) :: kvs, r3)
      | none => none := by
  simp [parseMembers, hk, hv]

lemma parseMembers_close (f : Nat) (k r1 r2 rest2 : List Char) (v : Json)
    (hk : parseStrChars (rest2.length + 1) rest2 = some (k, ':' :: r1))
    (hv : parseValue f r1 = some (v, '\x7d' :: r2)) :
    parseMembers (f + 1) ('"' :: rest2) = some ([(String.mk k, v)], r2) := by
  simp [parseMembers, hk, hv]

lemma printList_head_ne (v : Json) (vs : List Json) :
    ∃ c cs, printList (v :: vs) = c :: cs ∧ c ≠ ']' ∧ c ≠ '\x7d' := by
  obtain ⟨c, cs, hc, h1, h2⟩ := printJson_head_ne v
  cases vs with
  | nil => exact ⟨c, cs, hc, h1, h2⟩
  | cons w ws =>
    refine ⟨c, cs ++ ',' :: printList (w :: ws), ?_, h1, h2⟩
    simp only [printList, hc, List.cons_append]

lemma printMembers_head (k : String) (v : Json) (fs : List (String × Json)) :
    ∃ cs, printMembers ((k, v) :: fs) = '"' :: cs := by
  cases fs with
  | nil => exact ⟨_, rfl⟩
  | cons kw ws => exact ⟨_, rfl⟩

lemma parse_print_all : ∀ N : Nat,
    (∀ v : Json, jsize v ≤ N → ∀ fuel : Nat, jsize v ≤ fuel →
      ∀ rest : List Char, restOk rest = true →
      parseValue fuel (printJson v ++ rest) = some (v, rest)) ∧
    (∀ l : List Json, l ≠ [] → jsizeItems l ≤ N → ∀ fuel : Nat,
      jsizeItems l ≤ fuel → ∀ rest : List Char, restOk rest = true →
      parseItems fuel (printList l ++ ']' :: rest) = some (l, rest)) ∧
    (∀ fs : List (String × Json), fs ≠ [] → jsizeMembers fs ≤ N → ∀ fuel : Nat,
      jsizeMembers fs ≤ fuel → ∀ rest : List Char, restOk rest = true →
      parseMembers fuel (printMembers fs ++ '\x7d' :: rest) = some (fs, rest)) := by
  intro N
  induction N with
  | zero =>
    refine ⟨?_, ?_, ?_⟩
    · intro v hv
      exact absurd hv (by have := jsize_pos v; omega)
    · intro l hl hsz
      cases l with
      | nil => exact absurd rfl hl
      | cons v vs =>
        exact absurd hsz (by simp only [jsizeItems]; omega)
    · intro fs hfs hsz
      cases fs with
      | nil => exact absurd rfl hfs
      | cons kv ws =>
        obtain ⟨k, v⟩ := kv
        exact absurd hsz (by simp only [jsizeMembers]; omega)
  | succ N ih =>
    obtain ⟨ihV, ihL, ihM⟩ := ih
    refine ⟨?_, ?_, ?_⟩
    · intro v hv fuel hfuel rest hr
      cases fuel with
      | zero => exact absurd hfuel (by have := jsize_pos v; omega)
      | succ f =>
        cases v with
        | null =>
          simp only [printJson, List.cons_append, List.nil_append]
          exact parseValue_null f rest
        | bool b =>
          cases b
          · simp only [printJson, List.cons_append, List.nil_append]
            exact parseValue_false f rest
          · simp only [printJson, List.cons_append, List.nil_append]
            exact parseValue_true f rest
        | num n =>
          simp only [printJson]
          exact parseValue_num f n rest hr
        | str s =>
          simp only [printJson, List.cons_append, List.append_assoc,
            List.singleton_append, List.nil_append]
          rw [parseValue_str f _ s.toList rest
            (parseStrChars_escape s.toList rest _
              (by simp only [List.length_append, List.length_cons]; omega))]
          rfl
        | arr l =>
          cases l with
          | nil =>
            simp only [printJson, printList, List.nil_append, List.cons_append,
              List.singleton_append]
            exact parseValue_arr_nil f rest
          | cons v vs =>
            obtain ⟨c, cs, hpl, hc1, hc2⟩ := printList_head_ne v vs
            have hshape : printJson (.arr (v :: vs)) ++ rest
                = '[' :: c :: (cs ++ ']' :: rest) := by
              simp only [printJson, hpl, List.cons_append, List.append_assoc,
                List.singleton_append, List.nil_append]
            rw [hshape, parseValue_arr_ne f c _ hc1]
            have harg : c :: (cs ++ ']' :: rest)
                = printList (v :: vs) ++ ']' :: rest := by
              rw [hpl, List.cons_append]
            rw [harg, ihL (v :: vs) (by simp) (by simp only [jsize] at hv; omega) f
              (by simp only [jsize] at hfuel; omega) rest hr]
        | obj fs =>
          cases fs with
          | nil =>
            simp only [printJson, printMembers, List.nil_append, List.cons_append,
              List.singleton_append]
            exact parseValue_obj_nil f rest
          | cons kv fs2 =>
            obtain ⟨k, v⟩ := kv
            obtain ⟨ks, hpm⟩ := printMembers_head k v fs2
            have hshape : printJson (.obj ((k, v) :: fs2)) ++ rest
                = '\x7b' :: '"' :: (ks ++ '\x7d' :: rest) := by
              simp only [printJson, hpm, List.cons_append, List.append_assoc,
                List.singleton_append, List.nil_append]
            rw [hshape, parseValue_obj_ne f '"' _ (by decide)]
            have harg : '"' :: (ks ++ '\x7d' :: rest)
                = printMembers ((k, v) :: fs2) ++ '\x7d' :: rest := by
              rw [hpm, List.cons_append]
            rw [harg, ihM ((k, v) :: fs2) (by simp)
              (by simp only [jsize] at hv; omega) f
              (by simp only [jsize] at hfuel; omega) rest hr]
    · intro l hl hsz fuel hfuel rest hr
      cases l with
      | nil => exact absurd rfl hl
      | cons v vs =>
        cases fuel with
        | zero => exact absurd hfuel (by simp only [jsizeItems]; omega)
        | succ f =>
          cases vs with
          | nil =>
            have hv2 := ihV v (by simp only [jsizeItems] at hsz; omega) f
              (by simp only [jsizeItems] at hfuel; omega) (']' :: rest) (by rfl)
            simp only [printList]
            exact parseItems_close f _ rest v hv2
          | cons w ws =>
            have hv2 := ihV v (by simp only [jsizeItems] at hsz; omega) f
              (by simp only [jsizeItems] at hfuel; omega)
              (',' :: (printList (w :: ws) ++ ']' :: rest)) (by rfl)
            have hshape : printList (v :: w :: ws) ++ ']' :: rest
                = printJson v ++ ',' :: (printList (w :: ws) ++ ']' :: rest) := by
              simp only [printList, List.cons_append, List.append_assoc]
            rw [hshape, parseItems_comma f _ _ v hv2]
            rw [ihL (w :: ws) (by simp)
              (by simp only [jsizeItems] at hsz ⊢; have := jsize_pos v; omega) f
              (by simp only [jsizeItems] at hfuel ⊢; have := jsize_pos v; omega)
              rest hr]
    · intro fs hfs hsz fuel hfuel rest hr
      cases fs with
      | nil => exact absurd rfl hfs
      | cons kv fs2 =>
        obtain ⟨k, v⟩ := kv
        cases fuel with
        | zero => exact absurd hfuel (by simp only [jsizeMembers]; omega)
        | succ f =>
          cases fs2 with
          | nil =>
            have hv2 := ihV v (by simp only [jsizeMembers] at hsz; omega) f
              (by simp only [jsizeMembers] at hfuel; omega) ('\x7d' :: rest) (by rfl)
            have hshape : printMembers [(k, v)] ++ '\x7d' :: rest
                = '"' :: (escapeStr k.toList ++
                    '"' :: (':' :: (printJson v ++ '\x7d' :: rest))) := by
              simp only [printMembers, List.cons_append, List.append_assoc]
            rw [hshape]
            have hk : parseStrChars
                ((escapeStr k.toList ++
                  '"' :: (':' :: (printJson v ++ '\x7d' :: rest))).length + 1)
                (escapeStr k.toList ++
                  '"' :: (':' :: (printJson v ++ '\x7d' :: rest)))
                = some (k.toList, ':' :: (printJson v ++ '\x7d' :: rest)) :=
              parseStrChars_escape k.toList _ _
                (by simp only [List.length_append, List.length_cons]; omega)
            rw [parseMembers_close f k.toList _ _ _ v hk hv2]
            rfl
          | cons kw ws =>
            have hv2 := ihV v (by simp only [jsizeMembers] at hsz; omega) f
              (by simp only [jsizeMembers] at hfuel; omega)
              (',' :: (printMembers (kw :: ws) ++ '\x7d' :: rest)) (by rfl)
            have hshape : printMembers ((k, v) :: kw :: ws) ++ '\x7d' :: rest
                = '"' :: (escapeStr k.toList ++
                    '"' :: (':' :: (printJson v ++
                      ',' :: (printMembers (kw :: ws) ++ '\x7d' :: rest)))) := by
              simp only [printMembers, List.cons_append, List.append_assoc]
            rw [hshape]
            have hk : parseStrChars
                ((escapeStr k.toList ++
                  '"' :: (':' :: (printJson v ++
                    ',' :: (printMembers (kw :: ws) ++ '\x7d' :: rest)))).length + 1)
                (escapeStr k.toList ++
                  '"' :: (':' :: (printJson v ++
                    ',' :: (printMembers (kw :: ws) ++ '\x7d' :: rest))))
                = some (k.toList, ':' :: (printJson v ++
                    ',' :: (printMembers (kw :: ws) ++ '\x7d' :: rest))) :=
              parseStrChars_escape k.toList _ _
                (by simp only [List.length_append, List.length_cons]; omega)
            rw [parseMembers_comma f k.toList _ _ _ v hk hv2]
            rw [ihM (kw :: ws) (by simp)
              (by simp only [jsizeMembers] at hsz ⊢; have := jsize_pos v; omega) f
              (by simp only [jsizeMembers] at hfuel ⊢; have := jsize_pos v; omega)
              rest hr]
            rfl

lemma json_loads_print (v : Json) : json_loads (printJson v) = some v := by
  have h := (parse_print_all (jsize v)).1 v (le_refl _) ((printJson v).length + 1)
    (by have := (jsize_le_print (jsize v)).1 v (le_refl _); omega) [] rfl
  rw [List.append_nil] at h
  simp only [json_loads, h]

lemma segs_dotfree (A t : List Char) (hA : '.' ∉ A) :
    segs (A ++ '.' :: t) = A :: segs t := by
  induction A with
  | nil =>
    rw [List.nil_append]
    cases hst : segs t with
    | nil => exact absurd hst (segs_ne_nil t)
    | cons s rest =>
      simp only [segs, hst]
      rw [if_pos trivial]
  | cons a as ih =>
    have ha : a ≠ '.' := by rintro rfl; exact hA (List.mem_cons_self _ _)
    rw [List.cons_append]
    simp only [segs, ih (fun h => hA (List.mem_cons_of_mem a h))]
    rw [if_neg ha]

lemma segs_nodot (C : List Char) (hC : '.' ∉ C) : segs C = [C] := by
  induction C with
  | nil => rfl
  | cons a as ih =>
    have ha : a ≠ '.' := by rintro rfl; exact hC (List.mem_cons_self _ _)
    simp only [segs, ih (fun h => hC (List.mem_cons_of_mem a h))]
    rw [if_neg ha]

lemma asciiDecode_map (l : List Char) (h : ∀ c ∈ l, c.toNat < 128) :
    asciiDecode (l.map Char.toNat) = some l := by
  induction l with
  | nil => rfl
  | cons c cs ih =>
    simp only [List.map_cons, asciiDecode]
    rw [if_pos (h c (List.mem_cons_self _ _)),
      ih (fun x hx => h x (List.mem_cons_of_mem c hx))]
    simp only [Option.map_some']
    rw [Char.ofNat_toNat]

lemma b64encode_no_dot (bs : List Nat) (h : ∀ x ∈ bs, x < 256) :
    '.' ∉ b64encode bs := by
  induction bs using b64encode.induct with
  | case1 => simp [b64encode]
  | case2 a =>
    have ha : a < 256 := h a (by simp)
    intro hc
    simp only [b64encode, List.mem_cons, List.not_mem_nil, or_false] at hc
    rcases hc with hc | hc
    · exact b64EncodeChar_ne_dot (a / 4) (by omega) hc.symm
    · exact b64EncodeChar_ne_dot (a % 4 * 16) (by omega) hc.symm
  | case3 a b =>
    have ha : a < 256 := h a (by simp)
    have hb : b < 256 := h b (by simp)
    intro hc
    simp only [b64encode, List.mem_cons, List.not_mem_nil, or_false] at hc
    rcases hc with hc | hc | hc
    · exact b64EncodeChar_ne_dot (a / 4) (by omega) hc.symm
    · exact b64EncodeChar_ne_dot (a % 4 * 16 + b / 16) (by omega) hc.symm
    · exact b64EncodeChar_ne_dot (b % 16 * 4) (by omega) hc.symm
  | case4 a b c rest ih =>
    have ha : a < 256 := h a (by simp)
    have hb : b < 256 := h b (by simp)
    have hcn : c < 256 := h c (by simp)
    have ihx := ih (fun x hx => h x (by simp [hx]))
    intro hc
    simp only [b64encode, List.mem_cons] at hc
    rcases hc with hc | hc | hc | hc | hc
    · exact b64EncodeChar_ne_dot (a / 4) (by omega) hc.symm
    · exact b64EncodeChar_ne_dot (a % 4 * 16 + b / 16) (by omega) hc.symm
    · exact b64EncodeChar_ne_dot (b % 16 * 4 + c / 64) (by omega) hc.symm
    · exact b64EncodeChar_ne_dot (c % 64) (by omega) hc.symm
    · exact ihx hc

/-- C9: for every JSON payload object, building a JWT-shaped string whose
middle segment is the unpadded base64url encoding of the object's JSON
serialization (for any dot-free header and signature segments) and running
the repository's `decode_jwt_payload` on it recovers exactly the original
object: the decoder re-pads the middle segment to a multiple of four
characters, base64url-decodes it, and parses the bytes back into the same
JSON object. -/
theorem decode_encode_roundtrip (fields : List (String × Json))
    (header sig : List Char) (hh : '.' ∉ header) (hs : '.' ∉ sig) :
    decode_jwt_payload (encode_jwt header (.obj fields) sig) = .ok fields := by
  have hbr : ∀ x ∈ (printJson (.obj fields)).map Char.toNat, x < 256 := by
    intro x hx
    obtain ⟨c, hc, rfl⟩ := List.mem_map.mp hx
    have := printJson_ascii (.obj fields) c hc
    omega
  have hnd : '.' ∉ b64encode ((printJson (.obj fields)).map Char.toNat) :=
    b64encode_no_dot _ hbr
  have hsegs : segs (header ++ '.' ::
      (b64encode ((printJson (.obj fields)).map Char.toNat) ++ '.' :: sig))
      = [header, b64encode ((printJson (.obj fields)).map Char.toNat), sig] := by
    rw [segs_dotfree header _ hh, segs_dotfree _ _ hnd, segs_nodot sig hs]
  simp only [decode_jwt_payload, encode_jwt]
  rw [show (String.mk (header ++ '.' ::
      (b64encode ((printJson (.obj fields)).map Char.toNat) ++ '.' :: sig))).toList
      = header ++ '.' ::
        (b64encode ((printJson (.obj fields)).map Char.toNat) ++ '.' :: sig)
    from rfl]
  rw [hsegs]
  simp only [b64_roundtrip _ hbr,
    asciiDecode_map _ (printJson_ascii (.obj fields)), json_loads_print]

theorem decode_encode_roundtrip_witness :
    ('.' ∉ ['h']) ∧ ('.' ∉ ['s']) ∧
      decode_jwt_payload (encode_jwt ['h'] (.obj [("a", .num 1)]) ['s'])
        = .ok [("a", .num 1)] :=
  ⟨by decide, by decide,
    decode_encode_roundtrip [("a", .num 1)] ['h'] ['s'] (by decide) (by decide)⟩

end EduVulcan
